import Mathlib

/-!
Verification of the `purecode` line-classification engine.

This file shallowly embeds the Rust sources (`src/classifier.rs`,
`src/language.rs`, `src/lib.rs`, `src/parser.rs`, `src/files.rs`) as
executable Lean definitions over `List Char` and proves the spec claims
about them.  Rust byte indices returned by `str::find` are modelled as
character indices; since the code only slices at such indices, the
resulting segments coincide.
-/

/-- Model of Rust `char::is_whitespace` (the Unicode White_Space set). -/
def isWS (c : Char) : Bool :=
  let n := c.toNat
  decide ((9 ≤ n ∧ n ≤ 13) ∨ n = 32 ∨ n = 133 ∨ n = 160 ∨ n = 5760 ∨
    (8192 ≤ n ∧ n ≤ 8202) ∨ n = 8232 ∨ n = 8233 ∨ n = 8239 ∨ n = 8287 ∨ n = 12288)

/-- Characters of a string literal, the bridge from Rust string literals. -/
def str (s : String) : List Char := s.data

/-- Model of Rust `str::trim`: drop whitespace from both ends. -/
def trimL (l : List Char) : List Char :=
  ((l.dropWhile isWS).reverse.dropWhile isWS).reverse

/-- Model of Rust `s.trim().is_empty()`. -/
def blankL (l : List Char) : Bool := (trimL l).isEmpty

/-- Model of Rust `str::starts_with` for a pattern `p` against `s`. -/
def startsWithL : List Char → List Char → Bool
  | [], _ => true
  | _ :: _, [] => false
  | p :: ps, c :: cs => if p = c then startsWithL ps cs else false

/-- Model of Rust `str::find(pat)` (first index of a substring), for
nonempty patterns. -/
def findSub (pat : List Char) : List Char → Option Nat
  | [] => none
  | c :: cs => if startsWithL pat (c :: cs) then some 0 else (findSub pat cs).map (· + 1)

/-- Model of Rust `str::contains(pat)` for nonempty patterns. -/
def containsSub (pat s : List Char) : Bool := (findSub pat s).isSome

/-- Fuelled helper for `countSub`; the fuel `s.length` always suffices. -/
def countSubAux (pat : List Char) : Nat → List Char → Nat
  | 0, _ => 0
  | fuel + 1, s =>
    match s with
    | [] => 0
    | c :: cs =>
      if startsWithL pat (c :: cs) then 1 + countSubAux pat fuel (cs.drop (pat.length - 1))
      else countSubAux pat fuel cs

/-- Model of Rust `s.matches(pat).count()`: count of non-overlapping
occurrences of a nonempty pattern, scanning left to right. -/
def countSub (pat s : List Char) : Nat := countSubAux pat s.length s

/-- Fuelled helper for `trimStartMatches`. -/
def trimStartMatchesAux (pat : List Char) : Nat → List Char → List Char
  | 0, s => s
  | fuel + 1, s =>
    if pat ≠ [] ∧ startsWithL pat s then trimStartMatchesAux pat fuel (s.drop pat.length)
    else s

/-- Model of Rust `str::trim_start_matches(pat)`: repeatedly strip the
pattern from the start. -/
def trimStartMatches (pat s : List Char) : List Char := trimStartMatchesAux pat s.length s

/-- Model of the Rust idiom `if let Some(x) = s.strip_prefix(pat) { x } else { s }`. -/
def stripPrefixOnce (pat s : List Char) : List Char :=
  if startsWithL pat s then s.drop pat.length else s

/-- Fuelled helper for `countWords`. -/
def countWordsAux : Nat → List Char → Nat
  | 0, _ => 0
  | fuel + 1, s =>
    match s with
    | [] => 0
    | c :: cs =>
      if isWS c then countWordsAux fuel cs
      else 1 + countWordsAux fuel (cs.dropWhile (fun d => ¬ isWS d))

/-- Model of Rust `line.split_whitespace().count()`. -/
def countWords (s : List Char) : Nat := countWordsAux s.length s

/-- Line verdicts, from `classifier.rs` `enum LineType`. -/
inductive LineType where
  | Pure
  | Comment
  | Docstring
  | Blank
deriving DecidableEq, Repr

/-- The classifier variants of `classifier.rs` with their internal state,
one constructor per `struct` implementing `Classifier`. -/
inductive ClassifierState where
  | default
  | shell
  | python (inTripleDouble inTripleSingle : Bool)
  | cstyle (inBlock : Bool)
  | html (inComment : Bool)
  | ruby (inBlock : Bool)
deriving DecidableEq, Repr

/-- The `'''` marker of the Python classifier. -/
def tripleSingle : List Char := ['\'', '\'', '\'']

/-- Transcription of the `classify` methods of `classifier.rs`: one step of
a classifier on one line, returning the updated state and the verdict. -/
def classify : ClassifierState → List Char → ClassifierState × LineType
  | .default, line =>
    if (trimL line).isEmpty then (.default, .Blank) else (.default, .Pure)
  | .shell, line =>
    let t := trimL line
    if t.isEmpty then (.shell, .Blank)
    else if startsWithL (str "#") t then (.shell, .Comment)
    else (.shell, .Pure)
  | .python d s, line =>
    let t := trimL line
    if t.isEmpty then (.python d s, .Blank)
    else if d then
      (if containsSub (str "\"\"\"") t then (.python false s, .Docstring)
       else (.python d s, .Docstring))
    else if s then
      (if containsSub tripleSingle t then (.python d false, .Docstring)
       else (.python d s, .Docstring))
    else if startsWithL (str "#") t then (.python d s, .Comment)
    else if startsWithL (str "\"\"\"") t then
      (if 2 ≤ countSub (str "\"\"\"") line then (.python d s, .Docstring)
       else (.python true s, .Docstring))
    else if startsWithL tripleSingle t then
      (if 2 ≤ countSub tripleSingle line then (.python d s, .Docstring)
       else (.python d true, .Docstring))
    else (.python d s, .Pure)
  | .cstyle inBlock, line =>
    let t := trimL line
    if t.isEmpty then (.cstyle inBlock, .Blank)
    else if inBlock then
      match findSub (str "*/") t with
      | some e =>
        if blankL (t.drop (e + 2)) then (.cstyle false, .Comment) else (.cstyle false, .Pure)
      | none => (.cstyle true, .Comment)
    else if startsWithL (str "//") t then (.cstyle false, .Comment)
    else if startsWithL (str "*") t then (.cstyle false, .Comment)
    else
      match findSub (str "/*") t with
      | some s =>
        match findSub (str "*/") t with
        | some e =>
          if blankL (t.take s) ∧ blankL (t.drop (e + 2)) then (.cstyle false, .Comment)
          else (.cstyle false, .Pure)
        | none =>
          if blankL (t.take s) then (.cstyle true, .Comment) else (.cstyle true, .Pure)
      | none => (.cstyle false, .Pure)
  | .html inComment, line =>
    let t := trimL line
    if t.isEmpty then (.html inComment, .Blank)
    else if inComment then
      match findSub (str "-->") t with
      | some e =>
        if blankL (t.drop (e + 3)) then (.html false, .Comment) else (.html false, .Pure)
      | none => (.html true, .Comment)
    else
      match findSub (str "<!--") t with
      | some s =>
        match findSub (str "-->") (t.drop (s + 4)) with
        | some rel =>
          if blankL (t.take s) ∧ blankL (t.drop (s + 4 + rel + 3)) then (.html false, .Comment)
          else (.html false, .Pure)
        | none =>
          if blankL (t.take s) then (.html true, .Comment) else (.html true, .Pure)
      | none => (.html inComment, .Pure)
  | .ruby inBlock, line =>
    let t := trimL line
    if t.isEmpty then (.ruby inBlock, .Blank)
    else if inBlock then
      (if startsWithL (str "=end") t then (.ruby false, .Comment) else (.ruby true, .Comment))
    else if startsWithL (str "#") t then (.ruby false, .Comment)
    else if startsWithL (str "=begin") t then (.ruby true, .Comment)
    else (.ruby false, .Pure)

/-- Feed a list of lines through a classifier, collecting the verdicts. -/
def classifySeq : ClassifierState → List (List Char) → ClassifierState × List LineType
  | s, [] => (s, [])
  | s, l :: ls =>
    let r := classify s l
    let rest := classifySeq r.1 ls
    (rest.1, r.2 :: rest.2)

/-- The language tags of `language.rs` `enum Lang`. -/
inductive Lang where
  | Python | JavaScript | TypeScript | Html | Css | C | Cpp | Csharp | Java
  | Go | Php | Ruby | Swift | Kotlin | Scala | Shell | PowerShell | Vue | Other
deriving DecidableEq, Repr

/-- Transcription of `impl fmt::Display for Lang`. -/
def langToString : Lang → List Char
  | .Python => str "Python"
  | .JavaScript => str "JavaScript"
  | .TypeScript => str "TypeScript"
  | .Html => str "HTML"
  | .Css => str "CSS"
  | .C => str "C"
  | .Cpp => str "C++"
  | .Csharp => str "C#"
  | .Java => str "Java"
  | .Go => str "Go"
  | .Php => str "PHP"
  | .Ruby => str "Ruby"
  | .Swift => str "Swift"
  | .Kotlin => str "Kotlin"
  | .Scala => str "Scala"
  | .Shell => str "Shell"
  | .PowerShell => str "PowerShell"
  | .Vue => str "Vue"
  | .Other => str "Other"

/-- Split a path on `/` separators. -/
def splitSlash : List Char → List (List Char)
  | [] => [[]]
  | c :: cs =>
    let r := splitSlash cs
    if c = '/' then [] :: r
    else
      match r with
      | h :: t => (c :: h) :: t
      | [] => [[c]]

/-- Model of Rust `Path::file_name` (Unix semantics): the last nonempty,
non-`.` component, unless it is `..`. -/
def fileNameOf (p : List Char) : Option (List Char) :=
  let segs := (splitSlash p).filter (fun s => ¬ (s = [] ∨ s = ['.']))
  match segs.getLast? with
  | some last => if last = ['.', '.'] then none else some last
  | none => none

/-- Extension of a file name per Rust `Path::extension`: the part after the
last `.`, none when there is no `.` or the only `.` starts the name. -/
def extOfFileName (f : List Char) : Option (List Char) :=
  match findSub ['.'] f.reverse with
  | none => none
  | some k =>
    let i := f.length - 1 - k
    if i = 0 then none else some (f.drop (i + 1))

/-- Model of Rust `Path::extension` composed with `to_str`. -/
def pathExtension (p : List Char) : Option (List Char) :=
  match fileNameOf p with
  | none => none
  | some f => extOfFileName f

/-- The `_` arm of `Lang::from_path`: a filename check in which every
arm yields `Other`. -/
def fromPathDefault (p : List Char) : Lang :=
  match fileNameOf p with
  | some n =>
    if n = str "Dockerfile" then Lang.Other
    else if n = str "Makefile" then Lang.Other
    else Lang.Other
  | none => Lang.Other

/-- Transcription of `Lang::from_path` in `language.rs`. -/
def fromPath (p : List Char) : Lang :=
  match pathExtension p with
  | some s =>
    if s = str "py" then .Python
    else if s = str "js" ∨ s = str "jsx" ∨ s = str "mjs" then .JavaScript
    else if s = str "ts" ∨ s = str "tsx" then .TypeScript
    else if s = str "html" ∨ s = str "htm" then .Html
    else if s = str "css" ∨ s = str "scss" then .Css
    else if s = str "c" ∨ s = str "h" then .C
    else if s = str "cpp" ∨ s = str "hpp" ∨ s = str "cc" ∨ s = str "cxx" ∨ s = str "hh" then .Cpp
    else if s = str "cs" then .Csharp
    else if s = str "java" then .Java
    else if s = str "go" then .Go
    else if s = str "php" then .Php
    else if s = str "rb" then .Ruby
    else if s = str "swift" then .Swift
    else if s = str "kt" ∨ s = str "kts" then .Kotlin
    else if s = str "scala" ∨ s = str "sc" then .Scala
    else if s = str "sh" ∨ s = str "bash" ∨ s = str "zsh" then .Shell
    else if s = str "ps1" ∨ s = str "psm1" then .PowerShell
    else if s = str "vue" then .Vue
    else fromPathDefault p
  | none => fromPathDefault p

/-- Transcription of `detect_language` in `lib.rs` (string in, string out;
the extension defaults to the empty string via `unwrap_or`). -/
def detectLanguage (p : List Char) : List Char :=
  let e := (pathExtension p).getD []
  if e = str "py" then str "Python"
  else if e = str "ts" ∨ e = str "tsx" then str "TypeScript"
  else if e = str "js" ∨ e = str "jsx" then str "JavaScript"
  else if e = str "c" ∨ e = str "h" then str "C"
  else if e = str "cpp" ∨ e = str "cc" ∨ e = str "hpp" ∨ e = str "hh" then str "C++"
  else if e = str "cs" then str "C#"
  else if e = str "java" then str "Java"
  else if e = str "go" then str "Go"
  else if e = str "swift" then str "Swift"
  else if e = str "kt" ∨ e = str "kts" then str "Kotlin"
  else if e = str "php" then str "PHP"
  else if e = str "scala" then str "Scala"
  else if e = str "rb" then str "Ruby"
  else if e = str "sh" ∨ e = str "bash" ∨ e = str "zsh" then str "Shell"
  else if e = str "ps1" then str "PowerShell"
  else if e = str "css" ∨ e = str "scss" then str "CSS"
  else if e = str "html" ∨ e = str "htm" then str "HTML"
  else if e = str "vue" then str "Vue"
  else str "Other"

/-- Transcription of `get_classifier` in `classifier.rs`: the fresh initial
classifier state for a language tag. -/
def getClassifier : Lang → ClassifierState
  | .Python => .python false false
  | .TypeScript | .JavaScript | .C | .Cpp | .Csharp | .Java | .Go | .Php
  | .Swift | .Kotlin | .Scala | .Css => .cstyle false
  | .Html | .Vue => .html false
  | .Shell | .PowerShell => .shell
  | .Ruby => .ruby false
  | .Other => .default

/-- The twelve counters of `stats.rs` `struct LangStats` (Rust `i64`
counters that are only ever incremented, modelled as `Nat`). -/
structure LangStats where
  total_added : Nat := 0
  total_removed : Nat := 0
  pure_added : Nat := 0
  pure_removed : Nat := 0
  comment_lines_added : Nat := 0
  comment_lines_removed : Nat := 0
  docstring_lines_added : Nat := 0
  docstring_lines_removed : Nat := 0
  blank_lines_added : Nat := 0
  blank_lines_removed : Nat := 0
  code_words_added : Nat := 0
  code_words_removed : Nat := 0
deriving DecidableEq, Repr

/-- Per-file result record of `stats.rs` `struct FileStats`. -/
structure FileStats where
  path : List Char
  language : List Char
  lang_stats : LangStats
deriving DecidableEq, Repr

/-- The `+`-line counter update of `parse_diff` (and the per-line update of
`process_file`). -/
def bumpAdded (ls : LangStats) (v : LineType) (content : List Char) : LangStats :=
  match v with
  | .Pure => { ls with total_added := ls.total_added + 1, pure_added := ls.pure_added + 1, code_words_added := ls.code_words_added + countWords content }
  | .Comment => { ls with total_added := ls.total_added + 1, comment_lines_added := ls.comment_lines_added + 1 }
  | .Docstring => { ls with total_added := ls.total_added + 1, docstring_lines_added := ls.docstring_lines_added + 1 }
  | .Blank => { ls with total_added := ls.total_added + 1, blank_lines_added := ls.blank_lines_added + 1 }

/-- The `-`-line counter update of `parse_diff`. -/
def bumpRemoved (ls : LangStats) (v : LineType) (content : List Char) : LangStats :=
  match v with
  | .Pure => { ls with total_removed := ls.total_removed + 1, pure_removed := ls.pure_removed + 1, code_words_removed := ls.code_words_removed + countWords content }
  | .Comment => { ls with total_removed := ls.total_removed + 1, comment_lines_removed := ls.comment_lines_removed + 1 }
  | .Docstring => { ls with total_removed := ls.total_removed + 1, docstring_lines_removed := ls.docstring_lines_removed + 1 }
  | .Blank => { ls with total_removed := ls.total_removed + 1, blank_lines_removed := ls.blank_lines_removed + 1 }

/-- The mutable locals of `parse_diff` plus the output vector. -/
structure PState where
  cur : Option FileStats
  cl : ClassifierState
  isBinary : Bool
  ctxWarned : Bool
  out : List FileStats
deriving Repr

/-- Initial `parse_diff` state: no file open, classifier for `Other`. -/
def initPState : PState :=
  { cur := none, cl := getClassifier .Other, isBinary := false, ctxWarned := false, out := [] }

/-- The finalize-and-push logic at a `--- ` header or at end of stream:
push the open accumulator when it is non-binary and recorded a change. -/
def closeCur (st : PState) : List FileStats :=
  match st.cur with
  | some fs =>
    if ¬ st.isBinary ∧ (0 < fs.lang_stats.total_added ∨ 0 < fs.lang_stats.total_removed) then
      st.out ++ [fs]
    else st.out
  | none => st.out

/-- The `Binary files ... differ` branch of `parse_diff`. -/
def binaryStep (st : PState) : PState :=
  { st with cur := none, isBinary := true }

/-- The `--- ` header branch of `parse_diff`: close the previous section,
then open a new one unless the path is `/dev/null`. -/
def dashStep (st : PState) (line : List Char) : PState :=
  if trimL (trimStartMatches (str "--- ") line) = str "/dev/null" then
    { cur := none, cl := st.cl, isBinary := false, ctxWarned := st.ctxWarned, out := closeCur st }
  else
    { cur := some { path := stripPrefixOnce (str "a/") (trimL (trimStartMatches (str "--- ") line)), language := langToString (fromPath (stripPrefixOnce (str "a/") (trimL (trimStartMatches (str "--- ") line)))), lang_stats := {} }, cl := getClassifier (fromPath (stripPrefixOnce (str "a/") (trimL (trimStartMatches (str "--- ") line)))), isBinary := false, ctxWarned := st.ctxWarned, out := closeCur st }

/-- The `+++ ` header branch of `parse_diff`. -/
def plusStep (st : PState) (line : List Char) : PState :=
  if trimL (trimStartMatches (str "+++ ") line) = str "/dev/null" then st
  else
    match st.cur with
    | some fs =>
      if fs.path ≠ stripPrefixOnce (str "b/") (trimL (trimStartMatches (str "+++ ") line)) then
        { st with cur := some { fs with path := stripPrefixOnce (str "b/") (trimL (trimStartMatches (str "+++ ") line)), language := langToString (fromPath (stripPrefixOnce (str "b/") (trimL (trimStartMatches (str "+++ ") line)))) }, cl := getClassifier (fromPath (stripPrefixOnce (str "b/") (trimL (trimStartMatches (str "+++ ") line)))) }
      else st
    | none =>
      { st with cur := some { path := stripPrefixOnce (str "b/") (trimL (trimStartMatches (str "+++ ") line)), language := langToString (fromPath (stripPrefixOnce (str "b/") (trimL (trimStartMatches (str "+++ ") line)))), lang_stats := {} }, cl := getClassifier (fromPath (stripPrefixOnce (str "b/") (trimL (trimStartMatches (str "+++ ") line)))) }

/-- The `@@` hunk-header branch of `parse_diff`: re-initialize the
classifier for the tracked file's language. -/
def hunkStep (st : PState) : PState :=
  match st.cur with
  | some fs => { st with cl := getClassifier (fromPath fs.path) }
  | none => st

/-- The content branch of `parse_diff`: count a `+`/`-` line into the open
accumulator, or flag the context-line warning. -/
def contentStep (st : PState) (line : List Char) : PState :=
  match st.cur with
  | none => st
  | some fs =>
    if startsWithL (str "+") line ∧ ¬ startsWithL (str "+++") line then
      { st with cl := (classify st.cl (line.drop 1)).1, cur := some { fs with lang_stats := bumpAdded fs.lang_stats (classify st.cl (line.drop 1)).2 (line.drop 1) } }
    else if startsWithL (str "-") line ∧ ¬ startsWithL (str "---") line then
      { st with cl := (classify st.cl (line.drop 1)).1, cur := some { fs with lang_stats := bumpRemoved fs.lang_stats (classify st.cl (line.drop 1)).2 (line.drop 1) } }
    else if startsWithL (str " ") line then { st with ctxWarned := true }
    else st

/-- Transcription of the per-line body of `parse_diff` in `parser.rs`,
dispatching on the line shape in the priority order of the source. -/
def stepDiff (st : PState) (line : List Char) : PState :=
  if startsWithL (str "Binary files") line ∧ containsSub (str "differ") line then
    binaryStep st
  else if startsWithL (str "--- ") line then dashStep st line
  else if startsWithL (str "+++ ") line then plusStep st line
  else if startsWithL (str "@@") line then hunkStep st
  else if startsWithL (str "diff --git") line ∨ startsWithL (str "index ") line ∨
      startsWithL (str "new file mode") line ∨ startsWithL (str "deleted file mode") line then
    st
  else if st.isBinary then st
  else contentStep st line

/-- Transcription of `parse_diff`: fold the per-line body over the stream
and finalize the still-open accumulator. -/
def parseDiff (lines : List (List Char)) : List FileStats :=
  closeCur (List.foldl stepDiff initPState lines)

/-- The per-line accumulation loop of `process_file` in `files.rs`
(snapshot mode: every line counts as added). -/
def processFileLines (lang : Lang) (lines : List (List Char)) : LangStats :=
  (lines.foldl
    (fun (acc : ClassifierState × LangStats) line =>
      ((classify acc.1 line).1, bumpAdded acc.2 (classify acc.1 line).2 line))
    (getClassifier lang, {})).2

/-- Transcription of `process_file`: `binary` is the verdict of the
`is_binary` sniff (a null byte in the first 1024 bytes); a binary file
yields an error (`none`), any other readable file yields a `FileStats`. -/
def processFile (path : List Char) (binary : Bool) (lines : List (List Char)) :
    Option FileStats :=
  if binary then none
  else some { path := path, language := langToString (fromPath path), lang_stats := processFileLines (fromPath path) lines }

/-- The `LangStats` bookkeeping invariant of the spec: totals are the sum
of the four per-category counters, on both the added and removed side. -/
def sumOk (ls : LangStats) : Prop :=
  ls.total_added =
    ls.pure_added + ls.comment_lines_added + ls.docstring_lines_added + ls.blank_lines_added ∧
  ls.total_removed =
    ls.pure_removed + ls.comment_lines_removed + ls.docstring_lines_removed +
      ls.blank_lines_removed

/-- Per-line mixed-content marker data of the block-comment classifiers
when no comment is open: opener presence, inline closer presence, and
blankness of the text before the opener and after the closer. -/
inductive BlockView where
  | noOpener
  | inlineComment (beforeBlank afterBlank : Bool)
  | openerOnly (beforeBlank : Bool)
deriving DecidableEq, Repr

/-- Per-line marker data consulted while a multi-line comment is open:
closer presence and blankness of the text after it. -/
inductive CloseView where
  | noCloser
  | closer (afterBlank : Bool)
deriving DecidableEq, Repr

/-- Marker data `HtmlClassifier::classify` extracts from a line when no
comment is open: markers `<!--`/`-->`, the closer searched only after the
opener. -/
def htmlView (l : List Char) : BlockView :=
  match findSub (str "<!--") (trimL l) with
  | none => .noOpener
  | some s =>
    match findSub (str "-->") ((trimL l).drop (s + 4)) with
    | some rel =>
      .inlineComment (blankL ((trimL l).take s)) (blankL ((trimL l).drop (s + 4 + rel + 3)))
    | none => .openerOnly (blankL ((trimL l).take s))

/-- Marker data `HtmlClassifier::classify` extracts while a comment is
open. -/
def htmlCloseView (l : List Char) : CloseView :=
  match findSub (str "-->") (trimL l) with
  | some e => .closer (blankL ((trimL l).drop (e + 3)))
  | none => .noCloser

/-- Marker data `CStyleClassifier::classify` extracts from a line when no
block is open: markers `/*`/`*/`, the closer searched on the whole
trimmed line. -/
def cStyleView (m : List Char) : BlockView :=
  match findSub (str "/*") (trimL m) with
  | none => .noOpener
  | some s =>
    match findSub (str "*/") (trimL m) with
    | some e =>
      .inlineComment (blankL ((trimL m).take s)) (blankL ((trimL m).drop (e + 2)))
    | none => .openerOnly (blankL ((trimL m).take s))

/-- Marker data `CStyleClassifier::classify` extracts while a block is
open. -/
def cCloseView (m : List Char) : CloseView :=
  match findSub (str "*/") (trimL m) with
  | some e => .closer (blankL ((trimL m).drop (e + 2)))
  | none => .noCloser

/-- The shared decision rule while a comment is open: a closer closes the
block, and non-blank text after the closer makes the line Pure. -/
def closeDecide (cv : CloseView) : Bool × LineType :=
  match cv with
  | .closer ab => if ab then (false, .Comment) else (false, .Pure)
  | .noCloser => (true, .Comment)

/-- The mixed-content decision rule shared by the C-style and HTML
classifiers: from the open-block flag, the blank-line bit and the marker
data of a line, it yields the new flag and the verdict. -/
def blockDecide (inb blank : Bool) (v : BlockView) (cv : CloseView) : Bool × LineType :=
  if blank then (inb, .Blank)
  else if inb then closeDecide cv
  else
    match v with
    | .noOpener => (false, .Pure)
    | .inlineComment bb ab => if bb ∧ ab then (false, .Comment) else (false, .Pure)
    | .openerOnly bb => if bb then (true, .Comment) else (true, .Pure)

/-- Modelled from the amended claim text for the C-style not-in-block case:
the closer is looked up anywhere on the trimmed line; when found the line
is inline-classified and the block flag stays clear, when absent the block
flag is set and code before the opener forces Pure. -/
def cStyleSpecMixed (l : List Char) : ClassifierState × LineType :=
  let t := trimL l
  match findSub (str "/*") t with
  | some s =>
    match findSub (str "*/") t with
    | some e =>
      if blankL (t.take s) ∧ blankL (t.drop (e + 2)) then (.cstyle false, .Comment)
      else (.cstyle false, .Pure)
    | none =>
      if blankL (t.take s) then (.cstyle true, .Comment) else (.cstyle true, .Pure)
  | none => (.cstyle false, .Pure)

/-- Fuelled helper for `substMarkers`. -/
def substMarkersAux : Nat → List Char → List Char
  | 0, s => s
  | fuel + 1, s =>
    match s with
    | [] => []
    | c :: cs =>
      if startsWithL (str "<!--") (c :: cs) then str "/*" ++ substMarkersAux fuel (cs.drop 3)
      else if startsWithL (str "-->") (c :: cs) then str "*/" ++ substMarkersAux fuel (cs.drop 2)
      else c :: substMarkersAux fuel cs

/-- The marker substitution of claim C5: replace `<!--` by `/*` and `-->`
by `*/`, scanning left to right. -/
def substMarkers (s : List Char) : List Char := substMarkersAux s.length s

/-- Modelled from the spec's language resolution table (section 6), keyed
by the extension: the second definition of a path-to-language map, to be
compared with the transcriptions `fromPath` and `detectLanguage`. -/
def specLangTable : Option (List Char) → Lang
  | some s =>
    if s = str "py" then .Python
    else if s = str "js" ∨ s = str "jsx" ∨ s = str "mjs" then .JavaScript
    else if s = str "ts" ∨ s = str "tsx" then .TypeScript
    else if s = str "html" ∨ s = str "htm" then .Html
    else if s = str "css" ∨ s = str "scss" then .Css
    else if s = str "c" ∨ s = str "h" then .C
    else if s = str "cpp" ∨ s = str "hpp" ∨ s = str "cc" ∨ s = str "cxx" ∨ s = str "hh" then .Cpp
    else if s = str "cs" then .Csharp
    else if s = str "java" then .Java
    else if s = str "go" then .Go
    else if s = str "php" then .Php
    else if s = str "rb" then .Ruby
    else if s = str "swift" then .Swift
    else if s = str "kt" ∨ s = str "kts" then .Kotlin
    else if s = str "scala" ∨ s = str "sc" then .Scala
    else if s = str "sh" ∨ s = str "bash" ∨ s = str "zsh" then .Shell
    else if s = str "ps1" ∨ s = str "psm1" then .PowerShell
    else if s = str "vue" then .Vue
    else .Other
  | none => .Other

/-- The diff stream of the end-to-end scenario of claim C8 (spec section 8). -/
def c8lines : List (List Char) :=
  [str "diff --git a/test.py b/test.py", str "index 123..456 100644",
   str "--- a/test.py", str "+++ b/test.py", str "@@ -1,3 +1,3 @@",
   str "-def foo():", str "-# comment", str "+def bar():", str "+    pass"]

/-- `parse_diff` state instrumented with ghost data: the index of the line
that opened the current file section, a running line counter, and the list
of section-close events (the accumulator at close and the binary flag in
force at that moment).  The non-ghost fields mirror `PState`. -/
structure IState where
  cur : Option (Nat × FileStats)
  cl : ClassifierState
  isBinary : Bool
  ctxWarned : Bool
  idx : Nat
  out : List (Nat × FileStats)
  closes : List (FileStats × Bool)

/-- Initial instrumented state. -/
def iinit : IState :=
  { cur := none, cl := getClassifier .Other, isBinary := false, ctxWarned := false,
    idx := 0, out := [], closes := [] }

/-- Whether a close event survives `parse_diff`'s emission rule: not
binary, and at least one added or removed line. -/
def keepB (e : FileStats × Bool) : Bool :=
  !e.2 && (decide (0 < e.1.lang_stats.total_added) || decide (0 < e.1.lang_stats.total_removed))

/-- Instrumented `Binary files` branch: also records a close event with
the binary flag forced. -/
def ibinaryStep (st : IState) : IState :=
  { st with cur := none, isBinary := true, closes := match st.cur with | some p => st.closes ++ [(p.2, true)] | none => st.closes }

/-- Instrumented close: the emitted pairs keep the header index. -/
def icloseOut (st : IState) : List (Nat × FileStats) :=
  match st.cur with
  | some p =>
    if ¬ st.isBinary ∧ (0 < p.2.lang_stats.total_added ∨ 0 < p.2.lang_stats.total_removed) then
      st.out ++ [p]
    else st.out
  | none => st.out

/-- Instrumented close events: every close is recorded with the binary
flag in force at that moment. -/
def icloseEvents (st : IState) : List (FileStats × Bool) :=
  match st.cur with
  | some p => st.closes ++ [(p.2, st.isBinary)]
  | none => st.closes

/-- Instrumented `--- ` branch; a freshly opened section is tagged with
the index of this header line. -/
def idashStep (st : IState) (line : List Char) : IState :=
  if trimL (trimStartMatches (str "--- ") line) = str "/dev/null" then
    { cur := none, cl := st.cl, isBinary := false, ctxWarned := st.ctxWarned, idx := st.idx, out := icloseOut st, closes := icloseEvents st }
  else
    { cur := some (st.idx, { path := stripPrefixOnce (str "a/") (trimL (trimStartMatches (str "--- ") line)), language := langToString (fromPath (stripPrefixOnce (str "a/") (trimL (trimStartMatches (str "--- ") line)))), lang_stats := {} }), cl := getClassifier (fromPath (stripPrefixOnce (str "a/") (trimL (trimStartMatches (str "--- ") line)))), isBinary := false, ctxWarned := st.ctxWarned, idx := st.idx, out := icloseOut st, closes := icloseEvents st }

/-- Instrumented `+++ ` branch. -/
def iplusStep (st : IState) (line : List Char) : IState :=
  if trimL (trimStartMatches (str "+++ ") line) = str "/dev/null" then st
  else
    match st.cur with
    | some p =>
      if p.2.path ≠ stripPrefixOnce (str "b/") (trimL (trimStartMatches (str "+++ ") line)) then
        { st with cur := some (p.1, { p.2 with path := stripPrefixOnce (str "b/") (trimL (trimStartMatches (str "+++ ") line)), language := langToString (fromPath (stripPrefixOnce (str "b/") (trimL (trimStartMatches (str "+++ ") line)))) }), cl := getClassifier (fromPath (stripPrefixOnce (str "b/") (trimL (trimStartMatches (str "+++ ") line)))) }
      else st
    | none =>
      { st with cur := some (st.idx, { path := stripPrefixOnce (str "b/") (trimL (trimStartMatches (str "+++ ") line)), language := langToString (fromPath (stripPrefixOnce (str "b/") (trimL (trimStartMatches (str "+++ ") line)))), lang_stats := {} }), cl := getClassifier (fromPath (stripPrefixOnce (str "b/") (trimL (trimStartMatches (str "+++ ") line)))) }

/-- Instrumented `@@` branch. -/
def ihunkStep (st : IState) : IState :=
  match st.cur with
  | some p => { st with cl := getClassifier (fromPath p.2.path) }
  | none => st

/-- Instrumented content branch. -/
def icontentStep (st : IState) (line : List Char) : IState :=
  match st.cur with
  | none => st
  | some p =>
    if startsWithL (str "+") line ∧ ¬ startsWithL (str "+++") line then
      { st with cl := (classify st.cl (line.drop 1)).1, cur := some (p.1, { p.2 with lang_stats := bumpAdded p.2.lang_stats (classify st.cl (line.drop 1)).2 (line.drop 1) }) }
    else if startsWithL (str "-") line ∧ ¬ startsWithL (str "---") line then
      { st with cl := (classify st.cl (line.drop 1)).1, cur := some (p.1, { p.2 with lang_stats := bumpRemoved p.2.lang_stats (classify st.cl (line.drop 1)).2 (line.drop 1) }) }
    else if startsWithL (str " ") line then { st with ctxWarned := true }
    else st

/-- Advance the instrumented line counter; applied once per line. -/
def ibump (st : IState) : IState := { st with idx := st.idx + 1 }

/-- Instrumented version of `stepDiff`: identical on the mirrored fields,
and additionally advances the line counter, tags a freshly opened section
with the index of its header line, and records close events. -/
def istep (st : IState) (line : List Char) : IState :=
  if startsWithL (str "Binary files") line ∧ containsSub (str "differ") line then
    ibump (ibinaryStep st)
  else if startsWithL (str "--- ") line then ibump (idashStep st line)
  else if startsWithL (str "+++ ") line then ibump (iplusStep st line)
  else if startsWithL (str "@@") line then ibump (ihunkStep st)
  else if startsWithL (str "diff --git") line ∨ startsWithL (str "index ") line ∨
      startsWithL (str "new file mode") line ∨ startsWithL (str "deleted file mode") line then
    ibump st
  else if st.isBinary then ibump st
  else ibump (icontentStep st line)

/-- Instrumented finalize: the emitted (header-index, `FileStats`) pairs
and the full list of close events. -/
def ifinal (st : IState) : List (Nat × FileStats) × List (FileStats × Bool) :=
  (icloseOut st, icloseEvents st)

/-- Instrumented `parse_diff`. -/
def iparse (lines : List (List Char)) : List (Nat × FileStats) × List (FileStats × Bool) :=
  ifinal (List.foldl istep iinit lines)

/-- Erase the ghost fields of an instrumented state. -/
def eraseI (st : IState) : PState :=
  { cur := st.cur.map Prod.snd, cl := st.cl, isBinary := st.isBinary,
    ctxWarned := st.ctxWarned, out := st.out.map Prod.snd }

/-- Claim C6: every classifier variant, in every internal state (including
open block/docstring states), classifies a whitespace-only line as Blank
and leaves its state unchanged, so any open region stays open. -/
theorem c6_blank_preserves_state (s : ClassifierState) (l : List Char)
    (h : blankL l = true) : classify s l = (s, .Blank) := by
  unfold blankL at h
  cases s <;> simp [classify, h]

/-- Witness for `c6_blank_preserves_state` at a concrete state and line. -/
theorem c6_blank_preserves_state_witness :
    blankL (str "   ") = true ∧
    classify (.python true false) (str "   ") = (.python true false, .Blank) :=
  ⟨by decide, c6_blank_preserves_state (.python true false) (str "   ") (by decide)⟩

/-- Claim C7: the Python three-line docstring round trip yields Docstring
three times and fully closes the state, after which `x = 1` is Pure, and a
one-line docstring classifies as Docstring with no residual open state. -/
theorem c7_python_round_trip :
    classifySeq (.python false false) [str "\"\"\"", str "body text", str "\"\"\""] =
      (.python false false, [.Docstring, .Docstring, .Docstring]) ∧
    classify (.python false false) (str "x = 1") = (.python false false, .Pure) ∧
    classify (.python false false) (str "\"\"\" one line docs \"\"\"") =
      (.python false false, .Docstring) := by decide

/-- Claim C8: the end-to-end diff scenario yields exactly one `FileStats`,
for path `test.py`, language `Python`, with `total_removed = 2`,
`total_added = 2`, `pure_removed = 1`, `pure_added = 2`,
`comment_removed = 1`, `comment_added = 0` (the record equality also fixes
the remaining counters, all zero except the word counts). -/
theorem c8_end_to_end :
    parseDiff c8lines =
      [{ path := str "test.py", language := str "Python", lang_stats := { total_added := 2, total_removed := 2, pure_added := 2, pure_removed := 1, comment_lines_added := 0, comment_lines_removed := 1, code_words_added := 3, code_words_removed := 2 } }] ∧
    (parseDiff c8lines).length = 1 := by decide

/-- Counterexample to claim C4 as stated: on the line `x*/ /*` the opener
`/*` is present, the `//` and leading-`*` rules do not fire, no `*/`
occurs after the opener, and non-whitespace precedes the opener, so the
claim requires `in_block` to be set; the code instead finds the `*/` that
lies before the opener, takes the inline branch, and leaves the block
state clear. -/
theorem c4_counterexample :
    containsSub (str "/*") (trimL (str "x*/ /*")) = true ∧
    startsWithL (str "//") (trimL (str "x*/ /*")) = false ∧
    startsWithL (str "*") (trimL (str "x*/ /*")) = false ∧
    findSub (str "/*") (trimL (str "x*/ /*")) = some 4 ∧
    findSub (str "*/") ((trimL (str "x*/ /*")).drop (4 + 2)) = none ∧
    blankL ((trimL (str "x*/ /*")).take 4) = false ∧
    classify (.cstyle false) (str "x*/ /*") = (.cstyle false, .Pure) ∧
    (classify (.cstyle false) (str "x*/ /*")).1 ≠ ClassifierState.cstyle true := by decide

/-- Claim C4 amended: in the not-in-block state, on lines not caught by
the `//`-prefix or leading-`*` rules and containing `/*`, the code looks
the closer `*/` up anywhere on the trimmed line (not only after the
opener): when any `*/` exists the inline branch applies (Comment only when
the text before the opener and after the first closer are both blank,
block state stays clear); only when the line has no `*/` at all is
`in_block` set, with Pure exactly when non-whitespace precedes the opener. -/
theorem c4_amended (l : List Char)
    (h1 : startsWithL (str "//") (trimL l) = false)
    (h2 : startsWithL (str "*") (trimL l) = false)
    (h3 : (findSub (str "/*") (trimL l)).isSome = true) :
    classify (.cstyle false) l = cStyleSpecMixed l := by
  have hne : (trimL l).isEmpty = false := by
    cases htl : trimL l with
    | nil => rw [htl] at h3; simp [findSub] at h3
    | cons a as => simp
  cases hfs : findSub (str "/*") (trimL l) with
  | none => rw [hfs] at h3; simp at h3
  | some s =>
    cases hfe : findSub (str "*/") (trimL l) <;>
      simp [classify, cStyleSpecMixed, hne, h1, h2, hfs, hfe]

/-- Witness for `c4_amended` on a concrete mixed line. -/
theorem c4_amended_witness :
    (startsWithL (str "//") (trimL (str "a(); /* k */ b();")) = false ∧
     startsWithL (str "*") (trimL (str "a(); /* k */ b();")) = false ∧
     (findSub (str "/*") (trimL (str "a(); /* k */ b();"))).isSome = true) ∧
    classify (.cstyle false) (str "a(); /* k */ b();") =
      cStyleSpecMixed (str "a(); /* k */ b();") :=
  ⟨⟨by decide, by decide, by decide⟩, c4_amended _ (by decide) (by decide) (by decide)⟩

/-- The HTML classifier factors through the shared mixed-content decision
rule applied to its marker data. -/
theorem html_eq_view (b : Bool) (l : List Char) :
    classify (.html b) l =
      (ClassifierState.html (blockDecide b (blankL l) (htmlView l) (htmlCloseView l)).1,
       (blockDecide b (blankL l) (htmlView l) (htmlCloseView l)).2) := by
  cases hemp : (trimL l).isEmpty
  · have hbl : blankL l = false := hemp
    cases b
    · cases hfs : findSub (str "<!--") (trimL l) with
      | none => simp [classify, htmlView, blockDecide, hemp, hbl, hfs]
      | some s =>
        cases hfe : findSub (str "-->") ((trimL l).drop (s + 4)) with
        | none =>
          cases hbb : blankL ((trimL l).take s) <;>
            simp [classify, htmlView, blockDecide, hemp, hbl, hfs, hfe, hbb]
        | some rel =>
          cases hbb : blankL ((trimL l).take s) <;>
            cases hab : blankL ((trimL l).drop (s + 4 + rel + 3)) <;>
              simp [classify, htmlView, blockDecide, hemp, hbl, hfs, hfe, hbb, hab]
    · cases hfe : findSub (str "-->") (trimL l) with
      | none => simp [classify, htmlCloseView, blockDecide, closeDecide, hemp, hbl, hfe]
      | some e =>
        cases hab : blankL ((trimL l).drop (e + 3)) <;>
          simp [classify, htmlCloseView, blockDecide, closeDecide, hemp, hbl, hfe, hab]
  · have hbl : blankL l = true := hemp
    cases b <;> simp [classify, blockDecide, hemp, hbl]

/-- The C-style classifier, on lines not caught by its `//`-prefix and
leading-`*` rules, factors through the same shared mixed-content decision
rule applied to its marker data. -/
theorem cstyle_eq_view (b : Bool) (m : List Char)
    (h1 : startsWithL (str "//") (trimL m) = false)
    (h2 : startsWithL (str "*") (trimL m) = false) :
    classify (.cstyle b) m =
      (ClassifierState.cstyle (blockDecide b (blankL m) (cStyleView m) (cCloseView m)).1,
       (blockDecide b (blankL m) (cStyleView m) (cCloseView m)).2) := by
  cases hemp : (trimL m).isEmpty
  · have hbl : blankL m = false := hemp
    cases b
    · cases hfs : findSub (str "/*") (trimL m) with
      | none => simp [classify, cStyleView, blockDecide, hemp, hbl, hfs, h1, h2]
      | some s =>
        cases hfe : findSub (str "*/") (trimL m) with
        | none =>
          cases hbb : blankL ((trimL m).take s) <;>
            simp [classify, cStyleView, blockDecide, hemp, hbl, hfs, hfe, hbb, h1, h2]
        | some e =>
          cases hbb : blankL ((trimL m).take s) <;>
            cases hab : blankL ((trimL m).drop (e + 2)) <;>
              simp [classify, cStyleView, blockDecide, hemp, hbl, hfs, hfe, hbb, hab, h1, h2]
    · cases hfe : findSub (str "*/") (trimL m) with
      | none => simp [classify, cCloseView, blockDecide, closeDecide, hemp, hbl, hfe]
      | some e =>
        cases hab : blankL ((trimL m).drop (e + 2)) <;>
          simp [classify, cCloseView, blockDecide, closeDecide, hemp, hbl, hfe, hab]
  · have hbl : blankL m = true := hemp
    cases b <;> simp [classify, blockDecide, hemp, hbl]

/-- Counterexample to claim C5 as stated, showing both failure modes of
the marker-substitution correspondence.  First, `x--> <!--` (substitution
`x*/ /*`): C-style searches the closer on the whole line, so HTML opens a
comment while C-style does not, and the next line's verdicts diverge.
Second, `a/*b c` (substitution-identical, no `*/` anywhere, so the closer
searches trivially agree): the line carries C markers that arise from no
HTML marker, HTML stays closed while C-style opens a block, and the next
line's verdicts diverge.  Neither line triggers C-style's `//`-prefix or
leading-`*` rules. -/
theorem c5_counterexample :
    substMarkers (str "x--> <!--") = str "x*/ /*" ∧
    substMarkers (str "hello") = str "hello" ∧
    startsWithL (str "//") (trimL (substMarkers (str "x--> <!--"))) = false ∧
    startsWithL (str "*") (trimL (substMarkers (str "x--> <!--"))) = false ∧
    classifySeq (.html false) [str "x--> <!--", str "hello"] =
      (.html true, [.Pure, .Comment]) ∧
    classifySeq (.cstyle false) ([str "x--> <!--", str "hello"].map substMarkers) =
      (.cstyle false, [.Pure, .Pure]) ∧
    (classifySeq (.html false) [str "x--> <!--", str "hello"]).2 ≠
      (classifySeq (.cstyle false) ([str "x--> <!--", str "hello"].map substMarkers)).2 ∧
    substMarkers (str "a/*b c") = str "a/*b c" ∧
    startsWithL (str "//") (trimL (str "a/*b c")) = false ∧
    startsWithL (str "*") (trimL (str "a/*b c")) = false ∧
    findSub (str "*/") (trimL (str "a/*b c")) = none ∧
    classifySeq (.html false) [str "a/*b c", str "x"] = (.html false, [.Pure, .Pure]) ∧
    classifySeq (.cstyle false) ([str "a/*b c", str "x"].map substMarkers) =
      (.cstyle true, [.Pure, .Comment]) ∧
    (classifySeq (.html false) [str "a/*b c", str "x"]).2 ≠
      (classifySeq (.cstyle false) ([str "a/*b c", str "x"].map substMarkers)).2 := by
  decide

/-- Claim C5 amended: the two classifiers implement one shared
mixed-content decision rule, each applied to the marker data it extracts
from a line (HTML searches the closer only after the opener, C-style on
the whole trimmed line).  The claimed substitution correspondence — same
verdict and same open/closed flag for HTML on a line and C-style on its
marker substitution — therefore holds exactly on lines not triggering
C-style's `//`-prefix and leading-`*` rules whose extracted marker data
(blank-line bit, open-state data and closed-state data) coincide with
those of the substituted line; it fails otherwise, as the counterexample
shows for C-style's whole-line closer search and for C markers in the
text that arise from no HTML marker. -/
theorem c5_amended (b : Bool) (l : List Char)
    (h1 : startsWithL (str "//") (trimL (substMarkers l)) = false)
    (h2 : startsWithL (str "*") (trimL (substMarkers l)) = false)
    (hb : blankL l = blankL (substMarkers l))
    (hv : htmlView l = cStyleView (substMarkers l))
    (hc : htmlCloseView l = cCloseView (substMarkers l)) :
    classify (.html b) l =
      (ClassifierState.html (blockDecide b (blankL l) (htmlView l) (htmlCloseView l)).1,
       (blockDecide b (blankL l) (htmlView l) (htmlCloseView l)).2) ∧
    classify (.cstyle b) (substMarkers l) =
      (ClassifierState.cstyle (blockDecide b (blankL l) (htmlView l) (htmlCloseView l)).1,
       (blockDecide b (blankL l) (htmlView l) (htmlCloseView l)).2) :=
  ⟨html_eq_view b l, by
    rw [hb, hv, hc]
    exact cstyle_eq_view b (substMarkers l) h1 h2⟩

/-- Witness for `c5_amended` on a concrete mixed line whose marker data
survive the substitution. -/
theorem c5_amended_witness :
    (startsWithL (str "//") (trimL (substMarkers (str "x <!-- note --> y"))) = false ∧
     startsWithL (str "*") (trimL (substMarkers (str "x <!-- note --> y"))) = false ∧
     blankL (str "x <!-- note --> y") = blankL (substMarkers (str "x <!-- note --> y")) ∧
     htmlView (str "x <!-- note --> y") = cStyleView (substMarkers (str "x <!-- note --> y")) ∧
     htmlCloseView (str "x <!-- note --> y") =
       cCloseView (substMarkers (str "x <!-- note --> y"))) ∧
    classify (.cstyle false) (substMarkers (str "x <!-- note --> y")) =
      (ClassifierState.cstyle
        (blockDecide false (blankL (str "x <!-- note --> y")) (htmlView (str "x <!-- note --> y")) (htmlCloseView (str "x <!-- note --> y"))).1,
       (blockDecide false (blankL (str "x <!-- note --> y")) (htmlView (str "x <!-- note --> y")) (htmlCloseView (str "x <!-- note --> y"))).2) :=
  ⟨⟨by decide, by decide, by decide, by decide, by decide⟩,
   (c5_amended false (str "x <!-- note --> y")
     (by decide) (by decide) (by decide) (by decide) (by decide)).2⟩

/-- The `_` arm of `from_path` always resolves to `Other`. -/
theorem fromPathDefault_other (p : List Char) : fromPathDefault p = Lang.Other := by
  unfold fromPathDefault
  cases fileNameOf p with
  | none => rfl
  | some n => simp only []; split <;> (try split) <;> rfl

/-- Counterexample to claim C9 as stated: the spec table sends `.mjs` to
JavaScript, and `Language::from_path` does, but `detect_language` has no
`mjs` arm and returns `Other`, so the table does not hold for both
resolution functions. -/
theorem c9_counterexample :
    specLangTable (pathExtension (str "a.mjs")) = Lang.JavaScript ∧
    langToString (fromPath (str "a.mjs")) = str "JavaScript" ∧
    detectLanguage (str "a.mjs") = str "Other" ∧
    detectLanguage (str "a.mjs") ≠ str "JavaScript" := by decide

/-- Claim C9 amended: `Language::from_path` returns exactly the tag of the
spec's extension table for every path (unknown or missing extensions give
`Other`), while `detect_language` agrees with the table on every extension
except `mjs`, `cxx`, `sc` and `psm1`, which it sends to `Other`. -/
theorem c9_amended (p : List Char) :
    fromPath p = specLangTable (pathExtension p) ∧
    detectLanguage p =
      (if (pathExtension p).getD [] ∈ [str "mjs", str "cxx", str "sc", str "psm1"] then
        str "Other"
       else langToString (specLangTable (some ((pathExtension p).getD [])))) := by
  constructor
  · unfold fromPath specLangTable
    cases hep : pathExtension p with
    | none => exact fromPathDefault_other p
    | some s => rw [fromPathDefault_other p]
  · cases hep : pathExtension p with
    | none => simp only [detectLanguage, hep]; decide
    | some s =>
      simp only [detectLanguage, hep, Option.getD]
      by_cases e1 : s = str "mjs"
      · subst e1; decide
      by_cases e2 : s = str "cxx"
      · subst e2; decide
      by_cases e3 : s = str "sc"
      · subst e3; decide
      by_cases e4 : s = str "psm1"
      · subst e4; decide
      by_cases e5 : s = str "py"
      · subst e5; decide
      by_cases e6 : s = str "ts"
      · subst e6; decide
      by_cases e7 : s = str "tsx"
      · subst e7; decide
      by_cases e8 : s = str "js"
      · subst e8; decide
      by_cases e9 : s = str "jsx"
      · subst e9; decide
      by_cases e10 : s = str "c"
      · subst e10; decide
      by_cases e11 : s = str "h"
      · subst e11; decide
      by_cases e12 : s = str "cpp"
      · subst e12; decide
      by_cases e13 : s = str "cc"
      · subst e13; decide
      by_cases e14 : s = str "hpp"
      · subst e14; decide
      by_cases e15 : s = str "hh"
      · subst e15; decide
      by_cases e16 : s = str "cs"
      · subst e16; decide
      by_cases e17 : s = str "java"
      · subst e17; decide
      by_cases e18 : s = str "go"
      · subst e18; decide
      by_cases e19 : s = str "swift"
      · subst e19; decide
      by_cases e20 : s = str "kt"
      · subst e20; decide
      by_cases e21 : s = str "kts"
      · subst e21; decide
      by_cases e22 : s = str "php"
      · subst e22; decide
      by_cases e23 : s = str "scala"
      · subst e23; decide
      by_cases e24 : s = str "rb"
      · subst e24; decide
      by_cases e25 : s = str "sh"
      · subst e25; decide
      by_cases e26 : s = str "bash"
      · subst e26; decide
      by_cases e27 : s = str "zsh"
      · subst e27; decide
      by_cases e28 : s = str "ps1"
      · subst e28; decide
      by_cases e29 : s = str "css"
      · subst e29; decide
      by_cases e30 : s = str "scss"
      · subst e30; decide
      by_cases e31 : s = str "html"
      · subst e31; decide
      by_cases e32 : s = str "htm"
      · subst e32; decide
      by_cases e33 : s = str "vue"
      · subst e33; decide
      simp [specLangTable, langToString, e1, e2, e3, e4, e5, e6, e7, e8, e9, e10, e11, e12, e13, e14, e15, e16, e17, e18, e19, e20, e21, e22, e23, e24, e25, e26, e27, e28, e29, e30, e31, e32, e33]

/-- `closeCur` either leaves the output alone or appends the open
accumulator. -/
theorem closeCur_eq (st : PState) :
    closeCur st = st.out ∨ ∃ fs, st.cur = some fs ∧ closeCur st = st.out ++ [fs] := by
  unfold closeCur
  cases hc : st.cur with
  | none => exact Or.inl rfl
  | some fs0 =>
    dsimp only
    by_cases hb : ¬ st.isBinary = true ∧
        (0 < fs0.lang_stats.total_added ∨ 0 < fs0.lang_stats.total_removed)
    · rw [if_pos hb]
      exact Or.inr ⟨fs0, rfl, rfl⟩
    · rw [if_neg hb]
      exact Or.inl rfl

/-- The `Binary files` branch leaves the output alone. -/
theorem binaryStep_out (st : PState) : (binaryStep st).out = st.out := rfl

/-- The `Binary files` branch drops the open accumulator. -/
theorem binaryStep_cur (st : PState) : (binaryStep st).cur = none := rfl

/-- The `--- ` branch emits via `closeCur`. -/
theorem dashStep_out (st : PState) (line : List Char) :
    (dashStep st line).out = closeCur st := by
  unfold dashStep
  by_cases hd : trimL (trimStartMatches (str "--- ") line) = str "/dev/null"
  · rw [if_pos hd]
  · rw [if_neg hd]

/-- The `--- ` branch leaves no section open or opens a fresh one. -/
theorem dashStep_cur (st : PState) (line : List Char) :
    (dashStep st line).cur = none ∨
    ∃ cp, (dashStep st line).cur =
      some { path := cp, language := langToString (fromPath cp), lang_stats := {} } := by
  unfold dashStep
  by_cases hd : trimL (trimStartMatches (str "--- ") line) = str "/dev/null"
  · rw [if_pos hd]
    exact Or.inl rfl
  · rw [if_neg hd]
    exact Or.inr ⟨_, rfl⟩

/-- The `+++ ` branch leaves the output alone. -/
theorem plusStep_out (st : PState) (line : List Char) : (plusStep st line).out = st.out := by
  unfold plusStep
  by_cases hd : trimL (trimStartMatches (str "+++ ") line) = str "/dev/null"
  · rw [if_pos hd]
  · rw [if_neg hd]
    cases hc : st.cur with
    | some p =>
      dsimp only
      by_cases hr : p.path ≠ stripPrefixOnce (str "b/") (trimL (trimStartMatches (str "+++ ") line))
      · rw [if_pos hr]
      · rw [if_neg hr]
    | none => rfl

/-- The `+++ ` branch keeps the open section, opens a fresh one, or
renames the open one keeping its counters. -/
theorem plusStep_cur (st : PState) (line : List Char) :
    (plusStep st line).cur = st.cur ∨
    (∃ cp, (plusStep st line).cur =
      some { path := cp, language := langToString (fromPath cp), lang_stats := {} }) ∨
    (∃ fs cp, st.cur = some fs ∧ (plusStep st line).cur =
      some { fs with path := cp, language := langToString (fromPath cp) }) := by
  unfold plusStep
  by_cases hd : trimL (trimStartMatches (str "+++ ") line) = str "/dev/null"
  · rw [if_pos hd]
    exact Or.inl rfl
  · rw [if_neg hd]
    cases hc : st.cur with
    | some p =>
      dsimp only
      by_cases hr : p.path ≠ stripPrefixOnce (str "b/") (trimL (trimStartMatches (str "+++ ") line))
      · rw [if_pos hr]
        exact Or.inr (Or.inr ⟨p, _, rfl, rfl⟩)
      · rw [if_neg hr]
        exact Or.inl hc
    | none => exact Or.inr (Or.inl ⟨_, rfl⟩)

/-- The `@@` branch leaves the output alone. -/
theorem hunkStep_out (st : PState) : (hunkStep st).out = st.out := by
  unfold hunkStep
  cases hc : st.cur <;> rfl

/-- The `@@` branch leaves the open section alone. -/
theorem hunkStep_cur (st : PState) : (hunkStep st).cur = st.cur := by
  unfold hunkStep
  cases hc : st.cur <;> first | rfl | exact hc

/-- The content branch leaves the output alone. -/
theorem contentStep_out (st : PState) (line : List Char) :
    (contentStep st line).out = st.out := by
  unfold contentStep
  cases hc : st.cur with
  | none => rfl
  | some fs =>
    dsimp only
    by_cases h1 : startsWithL (str "+") line = true ∧ ¬ startsWithL (str "+++") line = true
    · rw [if_pos h1]
    · rw [if_neg h1]
      by_cases h2 : startsWithL (str "-") line = true ∧ ¬ startsWithL (str "---") line = true
      · rw [if_pos h2]
      · rw [if_neg h2]
        by_cases h3 : startsWithL (str " ") line = true
        · rw [if_pos h3]
        · rw [if_neg h3]

/-- The content branch keeps the open section or bumps its counters. -/
theorem contentStep_cur (st : PState) (line : List Char) :
    (contentStep st line).cur = st.cur ∨
    ∃ fs, st.cur = some fs ∧
      ((contentStep st line).cur = some { fs with
          lang_stats := bumpAdded fs.lang_stats (classify st.cl (line.drop 1)).2 (line.drop 1) } ∨
       (contentStep st line).cur = some { fs with
          lang_stats := bumpRemoved fs.lang_stats (classify st.cl (line.drop 1)).2 (line.drop 1) }) := by
  unfold contentStep
  cases hc : st.cur with
  | none => exact Or.inl hc
  | some fs =>
    dsimp only
    by_cases h1 : startsWithL (str "+") line = true ∧ ¬ startsWithL (str "+++") line = true
    · rw [if_pos h1]
      exact Or.inr ⟨fs, rfl, Or.inl rfl⟩
    · rw [if_neg h1]
      by_cases h2 : startsWithL (str "-") line = true ∧ ¬ startsWithL (str "---") line = true
      · rw [if_pos h2]
        exact Or.inr ⟨fs, rfl, Or.inr rfl⟩
      · rw [if_neg h2]
        by_cases h3 : startsWithL (str " ") line = true
        · rw [if_pos h3]
          exact Or.inl rfl
        · rw [if_neg h3]
          exact Or.inl hc

/-- Every `parse_diff` step is one of the six branch helpers. -/
theorem stepDiff_eq (st : PState) (line : List Char) :
    stepDiff st line = binaryStep st ∨ stepDiff st line = dashStep st line ∨
    stepDiff st line = plusStep st line ∨ stepDiff st line = hunkStep st ∨
    stepDiff st line = st ∨ stepDiff st line = contentStep st line := by
  unfold stepDiff
  by_cases h1 : startsWithL (str "Binary files") line = true ∧
      containsSub (str "differ") line = true
  · rw [if_pos h1]
    exact Or.inl rfl
  rw [if_neg h1]
  by_cases h2 : startsWithL (str "--- ") line = true
  · rw [if_pos h2]
    exact Or.inr (Or.inl rfl)
  rw [if_neg h2]
  by_cases h3 : startsWithL (str "+++ ") line = true
  · rw [if_pos h3]
    exact Or.inr (Or.inr (Or.inl rfl))
  rw [if_neg h3]
  by_cases h4 : startsWithL (str "@@") line = true
  · rw [if_pos h4]
    exact Or.inr (Or.inr (Or.inr (Or.inl rfl)))
  rw [if_neg h4]
  by_cases h5 : startsWithL (str "diff --git") line = true ∨ startsWithL (str "index ") line = true ∨
      startsWithL (str "new file mode") line = true ∨
      startsWithL (str "deleted file mode") line = true
  · rw [if_pos h5]
    exact Or.inr (Or.inr (Or.inr (Or.inr (Or.inl rfl))))
  rw [if_neg h5]
  by_cases h6 : st.isBinary = true
  · rw [if_pos h6]
    exact Or.inr (Or.inr (Or.inr (Or.inr (Or.inl rfl))))
  rw [if_neg h6]
  exact Or.inr (Or.inr (Or.inr (Or.inr (Or.inr rfl))))

/-- The empty counter record satisfies the sum invariant. -/
theorem sumOk_empty : sumOk {} := ⟨rfl, rfl⟩

/-- `bumpAdded` preserves the sum invariant. -/
theorem sumOk_bumpAdded (ls : LangStats) (v : LineType) (c : List Char) (h : sumOk ls) :
    sumOk (bumpAdded ls v c) := by
  obtain ⟨ha, hr⟩ := h
  cases v <;> simp [bumpAdded, sumOk] <;> omega

/-- `bumpRemoved` preserves the sum invariant. -/
theorem sumOk_bumpRemoved (ls : LangStats) (v : LineType) (c : List Char) (h : sumOk ls) :
    sumOk (bumpRemoved ls v c) := by
  obtain ⟨ha, hr⟩ := h
  cases v <;> simp [bumpRemoved, sumOk] <;> omega

/-- `closeCur` only emits records that already satisfied the invariant. -/
theorem closeCur_sumOk (st : PState)
    (hout : ∀ fs ∈ st.out, sumOk fs.lang_stats)
    (hcur : ∀ fs, st.cur = some fs → sumOk fs.lang_stats) :
    ∀ fs ∈ closeCur st, sumOk fs.lang_stats := by
  rcases closeCur_eq st with h | ⟨fs0, hc0, h⟩
  · rw [h]; exact hout
  · rw [h]
    intro fs hfs
    rcases List.mem_append.mp hfs with hm | hm
    · exact hout fs hm
    · have he := List.mem_singleton.mp hm
      subst he
      exact hcur fs hc0

/-- One `parse_diff` step preserves the sum invariant on the open
accumulator and on every emitted record. -/
theorem stepDiff_sumOk (st : PState) (line : List Char)
    (hout : ∀ fs ∈ st.out, sumOk fs.lang_stats)
    (hcur : ∀ fs, st.cur = some fs → sumOk fs.lang_stats) :
    (∀ fs ∈ (stepDiff st line).out, sumOk fs.lang_stats) ∧
    (∀ fs, (stepDiff st line).cur = some fs → sumOk fs.lang_stats) := by
  have hclose := closeCur_sumOk st hout hcur
  rcases stepDiff_eq st line with h | h | h | h | h | h <;> rw [h]
  · refine ⟨?_, ?_⟩
    · simp only [binaryStep_out]; exact hout
    · intro fs hfs
      rw [binaryStep_cur] at hfs
      simp at hfs
  · refine ⟨?_, ?_⟩
    · simp only [dashStep_out]; exact hclose
    · intro fs hfs
      rcases dashStep_cur st line with h2 | ⟨cp, h2⟩
      · rw [h2] at hfs; simp at hfs
      · rw [h2] at hfs
        have he := Option.some.inj hfs
        rw [← he]
        exact sumOk_empty
  · refine ⟨?_, ?_⟩
    · simp only [plusStep_out]; exact hout
    · intro fs hfs
      rcases plusStep_cur st line with h2 | ⟨cp, h2⟩ | ⟨fs0, cp, hc0, h2⟩
      · rw [h2] at hfs; exact hcur fs hfs
      · rw [h2] at hfs
        have he := Option.some.inj hfs
        rw [← he]
        exact sumOk_empty
      · rw [h2] at hfs
        have he := Option.some.inj hfs
        rw [← he]
        exact hcur fs0 hc0
  · refine ⟨?_, ?_⟩
    · simp only [hunkStep_out]; exact hout
    · intro fs hfs
      rw [hunkStep_cur] at hfs
      exact hcur fs hfs
  · exact ⟨hout, hcur⟩
  · refine ⟨?_, ?_⟩
    · simp only [contentStep_out]; exact hout
    · intro fs hfs
      rcases contentStep_cur st line with h2 | ⟨fs0, hc0, h2 | h2⟩
      · rw [h2] at hfs; exact hcur fs hfs
      · rw [h2] at hfs
        have he := Option.some.inj hfs
        rw [← he]
        exact sumOk_bumpAdded _ _ _ (hcur fs0 hc0)
      · rw [h2] at hfs
        have he := Option.some.inj hfs
        rw [← he]
        exact sumOk_bumpRemoved _ _ _ (hcur fs0 hc0)

/-- Folding `parse_diff` steps preserves the sum invariant. -/
theorem foldl_sumOk (lines : List (List Char)) :
    ∀ st : PState, (∀ fs ∈ st.out, sumOk fs.lang_stats) →
      (∀ fs, st.cur = some fs → sumOk fs.lang_stats) →
      (∀ fs ∈ (List.foldl stepDiff st lines).out, sumOk fs.lang_stats) ∧
      (∀ fs, (List.foldl stepDiff st lines).cur = some fs → sumOk fs.lang_stats) := by
  induction lines with
  | nil => intro st h1 h2; exact ⟨h1, h2⟩
  | cons l ls ih =>
    intro st h1 h2
    have h := stepDiff_sumOk st l h1 h2
    exact ih (stepDiff st l) h.1 h.2

/-- Claim C1: for every input in either mode — any line stream fed to
`parse_diff`, or any file content fed to the `process_file` loop — every
`LangStats` produced satisfies `total_added` equal to the sum of the four
added categories and `total_removed` equal to the sum of the four removed
categories, including on partial or malformed input. -/
theorem c1_sum_invariant :
    (∀ (lines : List (List Char)) (fs : FileStats), fs ∈ parseDiff lines →
      sumOk fs.lang_stats) ∧
    (∀ (lang : Lang) (lines : List (List Char)), sumOk (processFileLines lang lines)) := by
  constructor
  · intro lines fs hfs
    have hinit1 : ∀ fs ∈ initPState.out, sumOk fs.lang_stats := by
      intro fs h
      simp [initPState] at h
    have hinit2 : ∀ fs, initPState.cur = some fs → sumOk fs.lang_stats := by
      intro fs h
      simp [initPState] at h
    have h := foldl_sumOk lines initPState hinit1 hinit2
    exact closeCur_sumOk _ h.1 h.2 fs hfs
  · intro lang lines
    unfold processFileLines
    have key : ∀ (ls : List (List Char)) (acc : ClassifierState × LangStats), sumOk acc.2 →
        sumOk ((List.foldl (fun (acc : ClassifierState × LangStats) line =>
          ((classify acc.1 line).1, bumpAdded acc.2 (classify acc.1 line).2 line)) acc ls).2) := by
      intro ls
      induction ls with
      | nil => intro acc h; exact h
      | cons l ls2 ih => intro acc h; exact ih _ (sumOk_bumpAdded _ _ _ h)
    exact key lines _ sumOk_empty

/-- Witness for `c1_sum_invariant` at the end-to-end scenario's output. -/
theorem c1_sum_invariant_witness :
    sumOk ({ path := str "test.py", language := str "Python", lang_stats := { total_added := 2, total_removed := 2, pure_added := 2, pure_removed := 1, comment_lines_added := 0, comment_lines_removed := 1, code_words_added := 3, code_words_removed := 2 } } : FileStats).lang_stats :=
  c1_sum_invariant.1 c8lines _ (by decide)

/-- One `parse_diff` step preserves the link between the tracked language
string and the tracked path. -/
theorem stepDiff_langOk (st : PState) (line : List Char)
    (h : ∀ fs, st.cur = some fs → fs.language = langToString (fromPath fs.path)) :
    ∀ fs, (stepDiff st line).cur = some fs →
      fs.language = langToString (fromPath fs.path) := by
  intro fs hfs
  rcases stepDiff_eq st line with he | he | he | he | he | he <;> rw [he] at hfs
  · rw [binaryStep_cur] at hfs
    simp at hfs
  · rcases dashStep_cur st line with h2 | ⟨cp, h2⟩
    · rw [h2] at hfs; simp at hfs
    · rw [h2] at hfs
      have hi := Option.some.inj hfs
      rw [← hi]
  · rcases plusStep_cur st line with h2 | ⟨cp, h2⟩ | ⟨fs0, cp, hc0, h2⟩
    · rw [h2] at hfs; exact h fs hfs
    · rw [h2] at hfs
      have hi := Option.some.inj hfs
      rw [← hi]
    · rw [h2] at hfs
      have hi := Option.some.inj hfs
      rw [← hi]
  · rw [hunkStep_cur] at hfs
    exact h fs hfs
  · exact h fs hfs
  · rcases contentStep_cur st line with h2 | ⟨fs0, hc0, h2 | h2⟩
    · rw [h2] at hfs; exact h fs hfs
    · rw [h2] at hfs
      have hi := Option.some.inj hfs
      rw [← hi]
      exact h fs0 hc0
    · rw [h2] at hfs
      have hi := Option.some.inj hfs
      rw [← hi]
      exact h fs0 hc0

/-- Folding `parse_diff` steps preserves the language-path link. -/
theorem foldl_langOk (lines : List (List Char)) :
    ∀ st : PState,
      (∀ fs, st.cur = some fs → fs.language = langToString (fromPath fs.path)) →
      ∀ fs, (List.foldl stepDiff st lines).cur = some fs →
        fs.language = langToString (fromPath fs.path) := by
  induction lines with
  | nil => intro st h; exact h
  | cons l ls ih =>
    intro st h
    exact ih (stepDiff st l) (stepDiff_langOk st l h)

/-- A line starting with `@@` is two `@` signs and a tail. -/
theorem hunk_shape {line : List Char} (h : startsWithL (str "@@") line = true) :
    ∃ rest, line = '@' :: '@' :: rest := by
  have e : str "@@" = ['@', '@'] := rfl
  rw [e] at h
  cases line with
  | nil => simp [startsWithL] at h
  | cons c cs =>
    cases cs with
    | nil => by_cases hq : ('@' : Char) = c <;> simp [startsWithL, hq] at h
    | cons c2 cs2 =>
      by_cases hq : ('@' : Char) = c
      · by_cases hq2 : ('@' : Char) = c2
        · exact ⟨cs2, by rw [← hq, ← hq2]⟩
        · simp [startsWithL, hq, hq2] at h
      · simp [startsWithL, hq] at h

/-- On a hunk-header line, `parse_diff` takes exactly the `@@` branch. -/
theorem stepDiff_hunk (st : PState) (rest : List Char) :
    stepDiff st ('@' :: '@' :: rest) = hunkStep st := by
  have h1 : startsWithL (str "Binary files") ('@' :: '@' :: rest) = false := rfl
  have h2 : startsWithL (str "--- ") ('@' :: '@' :: rest) = false := rfl
  have h3 : startsWithL (str "+++ ") ('@' :: '@' :: rest) = false := rfl
  have h4 : startsWithL (str "@@") ('@' :: '@' :: rest) = true := rfl
  unfold stepDiff
  rw [if_neg (by simp [h1]), if_neg (by simp [h2]), if_neg (by simp [h3]), if_pos h4]

/-- Claim C3: in diff mode, stepping any `@@` hunk-header line while a
file is open resets the classifier to the freshly-initialized state for
the currently tracked file's language (derived from its path, with which
the tracked language string always agrees), discarding any open
multi-line flag, so the next content line is classified as by a fresh
classifier for that language. -/
theorem c3_hunk_reset (lines : List (List Char)) (line : List Char) (fs : FileStats)
    (hcur : (List.foldl stepDiff initPState lines).cur = some fs)
    (hline : startsWithL (str "@@") line = true) :
    (stepDiff (List.foldl stepDiff initPState lines) line).cl =
      getClassifier (fromPath fs.path) ∧
    fs.language = langToString (fromPath fs.path) := by
  obtain ⟨rest, rfl⟩ := hunk_shape hline
  constructor
  · rw [stepDiff_hunk]
    unfold hunkStep
    rw [hcur]
  · have hinit : ∀ fs0, initPState.cur = some fs0 →
        fs0.language = langToString (fromPath fs0.path) := by
      intro fs0 h0
      simp [initPState] at h0
    exact foldl_langOk lines initPState hinit fs hcur

/-- Witness for `c3_hunk_reset`: one open Python file, one hunk header. -/
theorem c3_hunk_reset_witness :
    (List.foldl stepDiff initPState [str "--- a/t.py"]).cur =
      some { path := str "t.py", language := str "Python", lang_stats := {} } ∧
    startsWithL (str "@@") (str "@@ -1 +1 @@") = true ∧
    (stepDiff (List.foldl stepDiff initPState [str "--- a/t.py"]) (str "@@ -1 +1 @@")).cl =
      getClassifier (fromPath (str "t.py")) :=
  ⟨by decide, by decide,
   (c3_hunk_reset [str "--- a/t.py"] (str "@@ -1 +1 @@")
     { path := str "t.py", language := str "Python", lang_stats := {} }
     (by decide) (by decide)).1⟩

/-- Projecting the instrumented close-and-emit agrees with `closeCur`. -/
theorem icloseOut_map (st : IState) : (icloseOut st).map Prod.snd = closeCur (eraseI st) := by
  unfold icloseOut closeCur eraseI
  cases hc : st.cur with
  | none => rfl
  | some p =>
    dsimp only
    simp only [Option.map_some']
    by_cases hb : ¬ st.isBinary = true ∧
        (0 < p.2.lang_stats.total_added ∨ 0 < p.2.lang_stats.total_removed)
    · rw [if_pos hb, if_pos hb]
      simp
    · rw [if_neg hb, if_neg hb]

/-- Erasure commutes with the `Binary files` branch. -/
theorem erase_ibinary (st : IState) : eraseI (ibinaryStep st) = binaryStep (eraseI st) := by
  unfold eraseI ibinaryStep binaryStep
  rfl

/-- Two parser states with equal fields are equal. -/
theorem pstate_ext {a b : PState} (h1 : a.cur = b.cur) (h2 : a.cl = b.cl)
    (h3 : a.isBinary = b.isBinary) (h4 : a.ctxWarned = b.ctxWarned)
    (h5 : a.out = b.out) : a = b := by
  cases a
  cases b
  cases h1
  cases h2
  cases h3
  cases h4
  cases h5
  rfl

/-- Erasure ignores the line-counter bump. -/
theorem erase_ibump (st : IState) : eraseI (ibump st) = eraseI st := rfl

/-- Erasure commutes with the `--- ` branch. -/
theorem erase_idash (st : IState) (line : List Char) :
    eraseI (idashStep st line) = dashStep (eraseI st) line := by
  unfold idashStep dashStep
  by_cases hd : trimL (trimStartMatches (str "--- ") line) = str "/dev/null"
  · rw [if_pos hd, if_pos hd]
    exact pstate_ext rfl rfl rfl rfl (icloseOut_map st)
  · rw [if_neg hd, if_neg hd]
    exact pstate_ext rfl rfl rfl rfl (icloseOut_map st)

/-- Erasure commutes with the `+++ ` branch. -/
theorem erase_iplus (st : IState) (line : List Char) :
    eraseI (iplusStep st line) = plusStep (eraseI st) line := by
  unfold iplusStep plusStep
  by_cases hd : trimL (trimStartMatches (str "+++ ") line) = str "/dev/null"
  · rw [if_pos hd, if_pos hd]
  · rw [if_neg hd, if_neg hd]
    unfold eraseI
    cases hc : st.cur with
    | none => rfl
    | some p =>
      dsimp only
      simp only [Option.map_some']
      by_cases hr : p.2.path ≠ stripPrefixOnce (str "b/") (trimL (trimStartMatches (str "+++ ") line))
      · rw [if_pos hr, if_pos hr]
        rfl
      · rw [if_neg hr, if_neg hr, hc]
        rfl

/-- Erasure commutes with the `@@` branch. -/
theorem erase_ihunk (st : IState) : eraseI (ihunkStep st) = hunkStep (eraseI st) := by
  unfold ihunkStep hunkStep eraseI
  cases hc : st.cur with
  | none => simp [hc]
  | some p => simp [hc]

/-- Erasure commutes with the content branch. -/
theorem erase_icontent (st : IState) (line : List Char) :
    eraseI (icontentStep st line) = contentStep (eraseI st) line := by
  unfold icontentStep contentStep eraseI
  cases hc : st.cur with
  | none => simp [hc]
  | some p =>
    dsimp only
    simp only [Option.map_some']
    by_cases h1 : startsWithL (str "+") line = true ∧ ¬ startsWithL (str "+++") line = true
    · rw [if_pos h1, if_pos h1]
      rfl
    · rw [if_neg h1, if_neg h1]
      by_cases h2 : startsWithL (str "-") line = true ∧ ¬ startsWithL (str "---") line = true
      · rw [if_pos h2, if_pos h2]
        rfl
      · rw [if_neg h2, if_neg h2]
        by_cases h3 : startsWithL (str " ") line = true
        · rw [if_pos h3, if_pos h3]
          rfl
        · rw [if_neg h3, if_neg h3]
          simp [hc]

/-- Erasure commutes with one instrumented step. -/
theorem erase_istep (st : IState) (line : List Char) :
    eraseI (istep st line) = stepDiff (eraseI st) line := by
  unfold istep stepDiff
  by_cases h1 : startsWithL (str "Binary files") line = true ∧
      containsSub (str "differ") line = true
  · rw [if_pos h1, if_pos h1, erase_ibump, erase_ibinary]
  rw [if_neg h1, if_neg h1]
  by_cases h2 : startsWithL (str "--- ") line = true
  · rw [if_pos h2, if_pos h2, erase_ibump, erase_idash]
  rw [if_neg h2, if_neg h2]
  by_cases h3 : startsWithL (str "+++ ") line = true
  · rw [if_pos h3, if_pos h3, erase_ibump, erase_iplus]
  rw [if_neg h3, if_neg h3]
  by_cases h4 : startsWithL (str "@@") line = true
  · rw [if_pos h4, if_pos h4, erase_ibump, erase_ihunk]
  rw [if_neg h4, if_neg h4]
  by_cases h5 : startsWithL (str "diff --git") line = true ∨
      startsWithL (str "index ") line = true ∨
      startsWithL (str "new file mode") line = true ∨
      startsWithL (str "deleted file mode") line = true
  · rw [if_pos h5, if_pos h5, erase_ibump]
  rw [if_neg h5, if_neg h5]
  by_cases h6 : st.isBinary = true
  · have h6a : (eraseI st).isBinary = true := h6
    rw [if_pos h6, if_pos h6a, erase_ibump]
  · have h6a : ¬ (eraseI st).isBinary = true := h6
    rw [if_neg h6, if_neg h6a, erase_ibump, erase_icontent]

/-- Erasure commutes with the whole instrumented fold. -/
theorem erase_foldl (lines : List (List Char)) :
    ∀ st : IState, eraseI (List.foldl istep st lines) = List.foldl stepDiff (eraseI st) lines := by
  induction lines with
  | nil => intro st; rfl
  | cons l ls ih =>
    intro st
    simp only [List.foldl_cons]
    rw [ih (istep st l), erase_istep]

/-- The instrumented parser projects onto `parse_diff`. -/
theorem iparse_proj (lines : List (List Char)) :
    ((iparse lines).1).map Prod.snd = parseDiff lines := by
  unfold iparse ifinal parseDiff
  have h := erase_foldl lines iinit
  have hi : eraseI iinit = initPState := rfl
  rw [hi] at h
  rw [← h]
  exact icloseOut_map (List.foldl istep iinit lines)

/-- `ibump` only advances the counter. -/
theorem ibump_out (st : IState) : (ibump st).out = st.out := rfl

/-- `ibump` leaves the open section alone. -/
theorem ibump_cur (st : IState) : (ibump st).cur = st.cur := rfl

/-- `ibump` leaves the close events alone. -/
theorem ibump_closes (st : IState) : (ibump st).closes = st.closes := rfl

/-- `ibump` advances the counter by one. -/
theorem ibump_idx (st : IState) : (ibump st).idx = st.idx + 1 := rfl

/-- Every instrumented step is a bumped branch helper. -/
theorem istep_eq (st : IState) (line : List Char) :
    istep st line = ibump (ibinaryStep st) ∨ istep st line = ibump (idashStep st line) ∨
    istep st line = ibump (iplusStep st line) ∨ istep st line = ibump (ihunkStep st) ∨
    istep st line = ibump st ∨ istep st line = ibump (icontentStep st line) := by
  unfold istep
  by_cases h1 : startsWithL (str "Binary files") line = true ∧
      containsSub (str "differ") line = true
  · rw [if_pos h1]
    exact Or.inl rfl
  rw [if_neg h1]
  by_cases h2 : startsWithL (str "--- ") line = true
  · rw [if_pos h2]
    exact Or.inr (Or.inl rfl)
  rw [if_neg h2]
  by_cases h3 : startsWithL (str "+++ ") line = true
  · rw [if_pos h3]
    exact Or.inr (Or.inr (Or.inl rfl))
  rw [if_neg h3]
  by_cases h4 : startsWithL (str "@@") line = true
  · rw [if_pos h4]
    exact Or.inr (Or.inr (Or.inr (Or.inl rfl)))
  rw [if_neg h4]
  by_cases h5 : startsWithL (str "diff --git") line = true ∨ startsWithL (str "index ") line = true ∨
      startsWithL (str "new file mode") line = true ∨
      startsWithL (str "deleted file mode") line = true
  · rw [if_pos h5]
    exact Or.inr (Or.inr (Or.inr (Or.inr (Or.inl rfl))))
  rw [if_neg h5]
  by_cases h6 : st.isBinary = true
  · rw [if_pos h6]
    exact Or.inr (Or.inr (Or.inr (Or.inr (Or.inl rfl))))
  rw [if_neg h6]
  exact Or.inr (Or.inr (Or.inr (Or.inr (Or.inr rfl))))

/-- Shapes of the instrumented close-and-emit. -/
theorem icloseOut_eq (st : IState) :
    icloseOut st = st.out ∨ ∃ p, st.cur = some p ∧ icloseOut st = st.out ++ [p] := by
  unfold icloseOut
  cases hc : st.cur with
  | none => exact Or.inl rfl
  | some p =>
    dsimp only
    by_cases hb : ¬ st.isBinary = true ∧
        (0 < p.2.lang_stats.total_added ∨ 0 < p.2.lang_stats.total_removed)
    · rw [if_pos hb]
      exact Or.inr ⟨p, rfl, rfl⟩
    · rw [if_neg hb]
      exact Or.inl rfl

/-- The instrumented close keeps the output-to-events correspondence. -/
theorem iclose_closes (st : IState)
    (h : st.out.map Prod.snd = (st.closes.filter keepB).map Prod.fst) :
    (icloseOut st).map Prod.snd = ((icloseEvents st).filter keepB).map Prod.fst := by
  unfold icloseOut icloseEvents
  cases hc : st.cur with
  | none => exact h
  | some p =>
    dsimp only
    by_cases hb : ¬ st.isBinary = true ∧
        (0 < p.2.lang_stats.total_added ∨ 0 < p.2.lang_stats.total_removed)
    · rw [if_pos hb]
      have hk : keepB (p.2, st.isBinary) = true := by
        obtain ⟨hbb, hor⟩ := hb
        have hb2 : st.isBinary = false := by
          cases hbv : st.isBinary
          · rfl
          · exact absurd hbv hbb
        unfold keepB
        rw [hb2]
        simp
        exact hor
      simp [List.filter_append, List.map_append, hk, h]
    · rw [if_neg hb]
      have hk : keepB (p.2, st.isBinary) = false := by
        unfold keepB
        by_cases hbv : st.isBinary = true
        · simp [hbv]
        · have hz : ¬ (0 < p.2.lang_stats.total_added ∨ 0 < p.2.lang_stats.total_removed) := by
            tauto
          have hz1 : p.2.lang_stats.total_added = 0 := by omega
          have hz2 : p.2.lang_stats.total_removed = 0 := by omega
          simp [hz1, hz2]
      simp [List.filter_append, hk, h]

/-- The instrumented `Binary files` branch: output unchanged, section
dropped, a binary-flagged close event recorded when one was open. -/
theorem ibinary_out (st : IState) : (ibinaryStep st).out = st.out := rfl

/-- The instrumented `Binary files` branch drops the open section. -/
theorem ibinary_cur (st : IState) : (ibinaryStep st).cur = none := rfl

/-- The instrumented `Binary files` branch keeps the counter. -/
theorem ibinary_idx (st : IState) : (ibinaryStep st).idx = st.idx := rfl

/-- Close events of the instrumented `Binary files` branch. -/
theorem ibinary_closes (st : IState) :
    (ibinaryStep st).closes = st.closes ∨
    ∃ p, st.cur = some p ∧ (ibinaryStep st).closes = st.closes ++ [(p.2, true)] := by
  unfold ibinaryStep
  cases hc : st.cur with
  | none => exact Or.inl rfl
  | some p => exact Or.inr ⟨p, rfl, rfl⟩

/-- The instrumented `--- ` branch emits via `icloseOut`. -/
theorem idash_out (st : IState) (line : List Char) :
    (idashStep st line).out = icloseOut st := by
  unfold idashStep
  split <;> rfl

/-- The instrumented `--- ` branch records close events via `icloseEvents`. -/
theorem idash_closes (st : IState) (line : List Char) :
    (idashStep st line).closes = icloseEvents st := by
  unfold idashStep
  split <;> rfl

/-- The instrumented `--- ` branch keeps the counter. -/
theorem idash_idx (st : IState) (line : List Char) : (idashStep st line).idx = st.idx := by
  unfold idashStep
  split <;> rfl

/-- The instrumented `--- ` branch opens nothing or a fresh section tagged
with the current line index. -/
theorem idash_cur (st : IState) (line : List Char) :
    (idashStep st line).cur = none ∨
    ∃ cp, (idashStep st line).cur =
      some (st.idx, { path := cp, language := langToString (fromPath cp), lang_stats := {} }) := by
  unfold idashStep
  split
  · exact Or.inl rfl
  · exact Or.inr ⟨_, rfl⟩

/-- The instrumented `+++ ` branch leaves the output alone. -/
theorem iplus_out (st : IState) (line : List Char) : (iplusStep st line).out = st.out := by
  unfold iplusStep
  by_cases hd : trimL (trimStartMatches (str "+++ ") line) = str "/dev/null"
  · rw [if_pos hd]
  · rw [if_neg hd]
    cases hc : st.cur with
    | some p =>
      dsimp only
      by_cases hr : p.2.path ≠ stripPrefixOnce (str "b/") (trimL (trimStartMatches (str "+++ ") line))
      · rw [if_pos hr]
      · rw [if_neg hr]
    | none => rfl

/-- The instrumented `+++ ` branch records no close event. -/
theorem iplus_closes (st : IState) (line : List Char) :
    (iplusStep st line).closes = st.closes := by
  unfold iplusStep
  by_cases hd : trimL (trimStartMatches (str "+++ ") line) = str "/dev/null"
  · rw [if_pos hd]
  · rw [if_neg hd]
    cases hc : st.cur with
    | some p =>
      dsimp only
      by_cases hr : p.2.path ≠ stripPrefixOnce (str "b/") (trimL (trimStartMatches (str "+++ ") line))
      · rw [if_pos hr]
      · rw [if_neg hr]
    | none => rfl

/-- The instrumented `+++ ` branch keeps the counter. -/
theorem iplus_idx (st : IState) (line : List Char) : (iplusStep st line).idx = st.idx := by
  unfold iplusStep
  by_cases hd : trimL (trimStartMatches (str "+++ ") line) = str "/dev/null"
  · rw [if_pos hd]
  · rw [if_neg hd]
    cases hc : st.cur with
    | some p =>
      dsimp only
      by_cases hr : p.2.path ≠ stripPrefixOnce (str "b/") (trimL (trimStartMatches (str "+++ ") line))
      · rw [if_pos hr]
      · rw [if_neg hr]
    | none => rfl

/-- The instrumented `+++ ` branch keeps the open section (and its tag),
opens a fresh one tagged with the current line, or renames in place. -/
theorem iplus_cur (st : IState) (line : List Char) :
    (iplusStep st line).cur = st.cur ∨
    (∃ cp, (iplusStep st line).cur =
      some (st.idx, { path := cp, language := langToString (fromPath cp), lang_stats := {} })) ∨
    (∃ p cp, st.cur = some p ∧ (iplusStep st line).cur =
      some (p.1, { p.2 with path := cp, language := langToString (fromPath cp) })) := by
  unfold iplusStep
  by_cases hd : trimL (trimStartMatches (str "+++ ") line) = str "/dev/null"
  · rw [if_pos hd]
    exact Or.inl rfl
  · rw [if_neg hd]
    cases hc : st.cur with
    | some p =>
      dsimp only
      by_cases hr : p.2.path ≠ stripPrefixOnce (str "b/") (trimL (trimStartMatches (str "+++ ") line))
      · rw [if_pos hr]
        exact Or.inr (Or.inr ⟨p, _, rfl, rfl⟩)
      · rw [if_neg hr]
        exact Or.inl hc
    | none => exact Or.inr (Or.inl ⟨_, rfl⟩)

/-- The instrumented `@@` branch leaves the output alone. -/
theorem ihunk_out (st : IState) : (ihunkStep st).out = st.out := by
  unfold ihunkStep
  cases hc : st.cur <;> rfl

/-- The instrumented `@@` branch records no close event. -/
theorem ihunk_closes (st : IState) : (ihunkStep st).closes = st.closes := by
  unfold ihunkStep
  cases hc : st.cur <;> rfl

/-- The instrumented `@@` branch keeps the counter. -/
theorem ihunk_idx (st : IState) : (ihunkStep st).idx = st.idx := by
  unfold ihunkStep
  cases hc : st.cur <;> rfl

/-- The instrumented `@@` branch leaves the open section alone. -/
theorem ihunk_cur (st : IState) : (ihunkStep st).cur = st.cur := by
  unfold ihunkStep
  cases hc : st.cur <;> first | rfl | exact hc

/-- The instrumented content branch leaves the output alone. -/
theorem icontent_out (st : IState) (line : List Char) :
    (icontentStep st line).out = st.out := by
  unfold icontentStep
  cases hc : st.cur with
  | none => rfl
  | some p =>
    dsimp only
    by_cases h1 : startsWithL (str "+") line = true ∧ ¬ startsWithL (str "+++") line = true
    · rw [if_pos h1]
    · rw [if_neg h1]
      by_cases h2 : startsWithL (str "-") line = true ∧ ¬ startsWithL (str "---") line = true
      · rw [if_pos h2]
      · rw [if_neg h2]
        by_cases h3 : startsWithL (str " ") line = true
        · rw [if_pos h3]
        · rw [if_neg h3]

/-- The instrumented content branch records no close event. -/
theorem icontent_closes (st : IState) (line : List Char) :
    (icontentStep st line).closes = st.closes := by
  unfold icontentStep
  cases hc : st.cur with
  | none => rfl
  | some p =>
    dsimp only
    by_cases h1 : startsWithL (str "+") line = true ∧ ¬ startsWithL (str "+++") line = true
    · rw [if_pos h1]
    · rw [if_neg h1]
      by_cases h2 : startsWithL (str "-") line = true ∧ ¬ startsWithL (str "---") line = true
      · rw [if_pos h2]
      · rw [if_neg h2]
        by_cases h3 : startsWithL (str " ") line = true
        · rw [if_pos h3]
        · rw [if_neg h3]

/-- The instrumented content branch keeps the counter. -/
theorem icontent_idx (st : IState) (line : List Char) :
    (icontentStep st line).idx = st.idx := by
  unfold icontentStep
  cases hc : st.cur with
  | none => rfl
  | some p =>
    dsimp only
    by_cases h1 : startsWithL (str "+") line = true ∧ ¬ startsWithL (str "+++") line = true
    · rw [if_pos h1]
    · rw [if_neg h1]
      by_cases h2 : startsWithL (str "-") line = true ∧ ¬ startsWithL (str "---") line = true
      · rw [if_pos h2]
      · rw [if_neg h2]
        by_cases h3 : startsWithL (str " ") line = true
        · rw [if_pos h3]
        · rw [if_neg h3]

/-- The instrumented content branch keeps the open section or bumps its
counters, keeping its header tag. -/
theorem icontent_cur (st : IState) (line : List Char) :
    (icontentStep st line).cur = st.cur ∨
    ∃ p, st.cur = some p ∧
      ((icontentStep st line).cur = some (p.1, { p.2 with
          lang_stats := bumpAdded p.2.lang_stats (classify st.cl (line.drop 1)).2 (line.drop 1) }) ∨
       (icontentStep st line).cur = some (p.1, { p.2 with
          lang_stats := bumpRemoved p.2.lang_stats (classify st.cl (line.drop 1)).2 (line.drop 1) })) := by
  unfold icontentStep
  cases hc : st.cur with
  | none => exact Or.inl hc
  | some p =>
    dsimp only
    by_cases h1 : startsWithL (str "+") line = true ∧ ¬ startsWithL (str "+++") line = true
    · rw [if_pos h1]
      exact Or.inr ⟨p, rfl, Or.inl rfl⟩
    · rw [if_neg h1]
      by_cases h2 : startsWithL (str "-") line = true ∧ ¬ startsWithL (str "---") line = true
      · rw [if_pos h2]
        exact Or.inr ⟨p, rfl, Or.inr rfl⟩
      · rw [if_neg h2]
        by_cases h3 : startsWithL (str " ") line = true
        · rw [if_pos h3]
          exact Or.inl rfl
        · rw [if_neg h3]
          exact Or.inl hc

/-- One instrumented step keeps the emitted output equal to the filtered
close events (not binary, at least one change). -/
theorem istep_closes (st : IState) (line : List Char)
    (h : st.out.map Prod.snd = (st.closes.filter keepB).map Prod.fst) :
    (istep st line).out.map Prod.snd =
      ((istep st line).closes.filter keepB).map Prod.fst := by
  rcases istep_eq st line with he | he | he | he | he | he <;>
    rw [he, ibump_out, ibump_closes]
  · rw [ibinary_out]
    rcases ibinary_closes st with h2 | ⟨p, hc, h2⟩ <;> rw [h2]
    · exact h
    · have hk : keepB (p.2, true) = false := rfl
      simp [List.filter_append, hk, h]
  · rw [idash_out, idash_closes]
    exact iclose_closes st h
  · rw [iplus_out, iplus_closes]
    exact h
  · rw [ihunk_out, ihunk_closes]
    exact h
  · exact h
  · rw [icontent_out, icontent_closes]
    exact h

/-- The instrumented fold keeps the output-to-events correspondence. -/
theorem ifoldl_closes (lines : List (List Char)) :
    ∀ st : IState, st.out.map Prod.snd = (st.closes.filter keepB).map Prod.fst →
      (List.foldl istep st lines).out.map Prod.snd =
        ((List.foldl istep st lines).closes.filter keepB).map Prod.fst := by
  induction lines with
  | nil => intro st h; exact h
  | cons l ls ih =>
    intro st h
    exact ih (istep st l) (istep_closes st l h)

/-- At the end of the stream, the emitted sequence equals the filtered
close-event sequence. -/
theorem iparse_closes (lines : List (List Char)) :
    ((iparse lines).1).map Prod.snd = ((iparse lines).2.filter keepB).map Prod.fst := by
  unfold iparse ifinal
  dsimp only
  exact iclose_closes _ (ifoldl_closes lines iinit rfl)

/-- One instrumented step preserves the header-index invariants: all
emitted tags are below the line counter, the open section's tag is below
the counter and above every emitted tag, and emitted tags are strictly
increasing. -/
theorem istep_idxinv (st : IState) (line : List Char)
    (h1 : ∀ q ∈ st.out, q.1 < st.idx)
    (h2 : ∀ q, st.cur = some q → q.1 < st.idx ∧ ∀ r ∈ st.out, r.1 < q.1)
    (h3 : List.Pairwise (fun a b : Nat × FileStats => a.1 < b.1) st.out) :
    (∀ q ∈ (istep st line).out, q.1 < (istep st line).idx) ∧
    (∀ q, (istep st line).cur = some q → q.1 < (istep st line).idx ∧
      ∀ r ∈ (istep st line).out, r.1 < q.1) ∧
    List.Pairwise (fun a b : Nat × FileStats => a.1 < b.1) (istep st line).out := by
  rcases istep_eq st line with he | he | he | he | he | he <;>
    rw [he, ibump_out, ibump_cur, ibump_idx]
  · rw [ibinary_out, ibinary_cur, ibinary_idx]
    refine ⟨fun q hq => Nat.lt_succ_of_lt (h1 q hq), fun q hq => by simp at hq, h3⟩
  · rw [idash_out, idash_idx]
    rcases icloseOut_eq st with ho | ⟨p, hcp, ho⟩ <;> rw [ho]
    · refine ⟨fun q hq => Nat.lt_succ_of_lt (h1 q hq), ?_, h3⟩
      intro q hq
      rcases idash_cur st line with h4 | ⟨cp, h4⟩ <;> rw [h4] at hq
      · simp at hq
      · have hi := Option.some.inj hq
        rw [← hi]
        exact ⟨Nat.lt_succ_self _, fun r hr => h1 r hr⟩
    · have hp := h2 p hcp
      refine ⟨?_, ?_, ?_⟩
      · intro q hq
        rcases List.mem_append.mp hq with hm | hm
        · exact Nat.lt_succ_of_lt (h1 q hm)
        · have hm2 := List.mem_singleton.mp hm
          subst hm2
          exact Nat.lt_succ_of_lt hp.1
      · intro q hq
        rcases idash_cur st line with h4 | ⟨cp, h4⟩ <;> rw [h4] at hq
        · simp at hq
        · have hi := Option.some.inj hq
          rw [← hi]
          refine ⟨Nat.lt_succ_self _, ?_⟩
          intro r hr
          rcases List.mem_append.mp hr with hm | hm
          · exact h1 r hm
          · have hm2 := List.mem_singleton.mp hm
            subst hm2
            exact hp.1
      · rw [List.pairwise_append]
        refine ⟨h3, List.pairwise_singleton _ _, ?_⟩
        intro a ha b hb
        have hb2 := List.mem_singleton.mp hb
        subst hb2
        exact hp.2 a ha
  · rw [iplus_out, iplus_idx]
    refine ⟨fun q hq => Nat.lt_succ_of_lt (h1 q hq), ?_, h3⟩
    intro q hq
    rcases iplus_cur st line with h4 | ⟨cp, h4⟩ | ⟨p, cp, hcp, h4⟩ <;> rw [h4] at hq
    · have hp := h2 q hq
      exact ⟨Nat.lt_succ_of_lt hp.1, hp.2⟩
    · have hi := Option.some.inj hq
      rw [← hi]
      exact ⟨Nat.lt_succ_self _, fun r hr => h1 r hr⟩
    · have hi := Option.some.inj hq
      rw [← hi]
      have hp := h2 p hcp
      exact ⟨Nat.lt_succ_of_lt hp.1, hp.2⟩
  · rw [ihunk_out, ihunk_cur, ihunk_idx]
    refine ⟨fun q hq => Nat.lt_succ_of_lt (h1 q hq), ?_, h3⟩
    intro q hq
    have hp := h2 q hq
    exact ⟨Nat.lt_succ_of_lt hp.1, hp.2⟩
  · refine ⟨fun q hq => Nat.lt_succ_of_lt (h1 q hq), ?_, h3⟩
    intro q hq
    have hp := h2 q hq
    exact ⟨Nat.lt_succ_of_lt hp.1, hp.2⟩
  · rw [icontent_out, icontent_idx]
    refine ⟨fun q hq => Nat.lt_succ_of_lt (h1 q hq), ?_, h3⟩
    intro q hq
    rcases icontent_cur st line with h4 | ⟨p, hcp, h4 | h4⟩ <;> rw [h4] at hq
    · have hp := h2 q hq
      exact ⟨Nat.lt_succ_of_lt hp.1, hp.2⟩
    · have hi := Option.some.inj hq
      rw [← hi]
      have hp := h2 p hcp
      exact ⟨Nat.lt_succ_of_lt hp.1, hp.2⟩
    · have hi := Option.some.inj hq
      rw [← hi]
      have hp := h2 p hcp
      exact ⟨Nat.lt_succ_of_lt hp.1, hp.2⟩

/-- The instrumented fold preserves the header-index invariants. -/
theorem ifoldl_idxinv (lines : List (List Char)) :
    ∀ st : IState, (∀ q ∈ st.out, q.1 < st.idx) →
      (∀ q, st.cur = some q → q.1 < st.idx ∧ ∀ r ∈ st.out, r.1 < q.1) →
      List.Pairwise (fun a b : Nat × FileStats => a.1 < b.1) st.out →
      (∀ q ∈ (List.foldl istep st lines).out, q.1 < (List.foldl istep st lines).idx) ∧
      (∀ q, (List.foldl istep st lines).cur = some q →
        q.1 < (List.foldl istep st lines).idx ∧
        ∀ r ∈ (List.foldl istep st lines).out, r.1 < q.1) ∧
      List.Pairwise (fun a b : Nat × FileStats => a.1 < b.1)
        (List.foldl istep st lines).out := by
  induction lines with
  | nil => intro st h1 h2 h3; exact ⟨h1, h2, h3⟩
  | cons l ls ih =>
    intro st h1 h2 h3
    have h := istep_idxinv st l h1 h2 h3
    exact ih (istep st l) h.1 h.2.1 h.2.2

/-- The emitted pairs carry strictly increasing header indices. -/
theorem iparse_pairwise (lines : List (List Char)) :
    List.Pairwise (fun a b : Nat × FileStats => a.1 < b.1) (iparse lines).1 := by
  unfold iparse ifinal
  dsimp only
  have h := ifoldl_idxinv lines iinit (by intro q hq; simp [iinit] at hq)
    (by intro q hq; simp [iinit] at hq) (by simp [iinit])
  rcases icloseOut_eq (List.foldl istep iinit lines) with ho | ⟨p, hcp, ho⟩ <;> rw [ho]
  · exact h.2.2
  · rw [List.pairwise_append]
    refine ⟨h.2.2, List.pairwise_singleton _ _, ?_⟩
    intro a ha b hb
    have hb2 := List.mem_singleton.mp hb
    subst hb2
    exact (h.2.1 b hcp).2 a ha

/-- Counterexample to claim C2 as stated: in snapshot mode a readable,
non-binary file with no lines (an empty file passes the null-byte sniff)
produces a `FileStats` with zero total changes — `process_file` emits
every successfully read file regardless of change count, so a zero-change
file is emitted. -/
theorem c2_counterexample :
    processFile (str "empty.py") false [] =
      some { path := str "empty.py", language := str "Python", lang_stats := {} } ∧
    ({} : LangStats).total_added = 0 ∧ ({} : LangStats).total_removed = 0 := by decide

/-- Claim C2 amended: in diff mode the emitted sequence is exactly the
section-close events that were non-binary and recorded at least one
changed line, each section closing once (so no zero-change file is ever
emitted there); in snapshot mode, however, `process_file` yields a
`FileStats` if and only if the file is readable and not binary, with no
change-count condition, so snapshot mode does emit zero-change entries
for empty files. -/
theorem c2_emission (lines : List (List Char)) :
    parseDiff lines = ((iparse lines).2.filter keepB).map Prod.fst ∧
    (∀ fs ∈ parseDiff lines, 0 < fs.lang_stats.total_added ∨
      0 < fs.lang_stats.total_removed) ∧
    (∀ (path : List Char) (b : Bool) (ls : List (List Char)),
      (processFile path b ls).isSome = !b) := by
  have he : parseDiff lines = ((iparse lines).2.filter keepB).map Prod.fst := by
    rw [← iparse_proj lines, iparse_closes lines]
  refine ⟨he, ?_, ?_⟩
  · intro fs hfs
    rw [he] at hfs
    rcases List.mem_map.mp hfs with ⟨e, hel, hef⟩
    have hk := List.of_mem_filter hel
    simp only [keepB, Bool.and_eq_true, Bool.or_eq_true, decide_eq_true_eq] at hk
    rcases hk with ⟨hb, h1 | h1⟩
    · exact Or.inl (hef ▸ h1)
    · exact Or.inr (hef ▸ h1)
  · intro path b ls
    unfold processFile
    cases b <;> simp

/-- Witness for `c2_emission` at the end-to-end scenario's output. -/
theorem c2_emission_witness :
    0 < ({ path := str "test.py", language := str "Python", lang_stats := { total_added := 2, total_removed := 2, pure_added := 2, pure_removed := 1, comment_lines_added := 0, comment_lines_removed := 1, code_words_added := 3, code_words_removed := 2 } } : FileStats).lang_stats.total_added ∨
    0 < ({ path := str "test.py", language := str "Python", lang_stats := { total_added := 2, total_removed := 2, pure_added := 2, pure_removed := 1, comment_lines_added := 0, comment_lines_removed := 1, code_words_added := 3, code_words_removed := 2 } } : FileStats).lang_stats.total_removed :=
  (c2_emission c8lines).2.1 _ (by decide)

/-- Claim C10: `parse_diff` preserves input order — the instrumented
parser tags every emitted `FileStats` with the index of the header line
that opened its section, the tags come out strictly increasing, and
projecting the tags away yields exactly `parse_diff`'s output, so the
i-th emitted record corresponds to the i-th file section of the stream. -/
theorem c10_output_order (lines : List (List Char)) :
    ((iparse lines).1).map Prod.snd = parseDiff lines ∧
    List.Pairwise (fun a b : Nat × FileStats => a.1 < b.1) (iparse lines).1 :=
  ⟨iparse_proj lines, iparse_pairwise lines⟩
